import Mathlib

/-!
Verification development for the `paps` metadata library (`metadata.py`).

The Python source is shallowly embedded: pure functions become Lean
functions, exceptions become `Except` / `Option`, and the CSV layer is
modelled at the level of tables of cells (`List (List String)`), since
Python's `csv` module with `QUOTE_ALL` encodes and decodes each cell
losslessly.  The regular-expression match in `segment_seconds` is embedded
as an explicit backtracking matcher that follows the structure of the
pattern `^(\d\x7b2\x7d)?:?([0-5]\d):?([0-5]\d)\s*[-|+;]\s*(\d\x7b2\x7d)?:?([0-5]\d):?([0-5]\d)$`
under Python `re` semantics for a `str` pattern: `\d` matches any Unicode
decimal digit (and `int()` converts it by its decimal value), `\s` any
Unicode whitespace, `re.search` with a `^` anchor matches only at the
start, and `$` also matches just before one trailing newline.
-/

/-- Decidable equality of `Except` results, for concrete evaluations. -/
instance instDecEqExceptP {ε α : Type} [DecidableEq ε] [DecidableEq α] :
    DecidableEq (Except ε α) := fun a b =>
  match a, b with
  | .ok x, .ok y =>
    if h : x = y then isTrue (by rw [h]) else isFalse (by intro hc; cases hc; exact h rfl)
  | .error x, .error y =>
    if h : x = y then isTrue (by rw [h]) else isFalse (by intro hc; cases hc; exact h rfl)
  | .ok _, .error _ => isFalse (by intro hc; cases hc)
  | .error _, .ok _ => isFalse (by intro hc; cases hc)

namespace Paps

/-! ## Character classes (Python `re` on a `str` pattern: Unicode semantics) -/

/-- Code-point membership in a list of inclusive ranges. -/
def inRanges (rs : List (Nat × Nat)) (n : Nat) : Bool :=
  rs.any (fun p => p.1 ≤ n && n ≤ p.2)

/-- The decades of Unicode decimal digits (general category `Nd`, Unicode
14.0, as matched by CPython 3.11's `\d` on a `str` pattern).  Each decade
runs from the digit of value 0 to the digit of value 9, so the decimal
value of a digit is its code point minus the decade's start. -/
def ndDecades : List (Nat × Nat) :=
  [(48, 57), (1632, 1641), (1776, 1785), (1984, 1993),
   (2406, 2415), (2534, 2543), (2662, 2671), (2790, 2799),
   (2918, 2927), (3046, 3055), (3174, 3183), (3302, 3311),
   (3430, 3439), (3558, 3567), (3664, 3673), (3792, 3801),
   (3872, 3881), (4160, 4169), (4240, 4249), (6112, 6121),
   (6160, 6169), (6470, 6479), (6608, 6617), (6784, 6793),
   (6800, 6809), (6992, 7001), (7088, 7097), (7232, 7241),
   (7248, 7257), (42528, 42537), (43216, 43225), (43264, 43273),
   (43472, 43481), (43504, 43513), (43600, 43609), (44016, 44025),
   (65296, 65305), (66720, 66729), (68912, 68921), (69734, 69743),
   (69872, 69881), (69942, 69951), (70096, 70105), (70384, 70393),
   (70736, 70745), (70864, 70873), (71248, 71257), (71360, 71369),
   (71472, 71481), (71904, 71913), (72016, 72025), (72784, 72793),
   (73040, 73049), (73120, 73129), (92768, 92777), (92864, 92873),
   (93008, 93017), (120782, 120791), (120792, 120801), (120802, 120811),
   (120812, 120821), (120822, 120831), (123200, 123209), (123632, 123641),
   (125264, 125273), (130032, 130041)]

/-- The Unicode whitespace ranges matched by CPython's `\s` on a `str`
pattern (tab..carriage-return, 28..32, NEL, NBSP, Ogham space mark, the
typographic spaces 0x2000..0x200A, the line/paragraph separators, narrow
NBSP, medium mathematical space, ideographic space). -/
def wsRanges : List (Nat × Nat) :=
  [(9, 13), (28, 32), (133, 133), (160, 160),
   (5760, 5760), (8192, 8202), (8232, 8233), (8239, 8239),
   (8287, 8287), (12288, 12288)]

/-- `\d` : any Unicode decimal digit. -/
def isDigitC (c : Char) : Bool := inRanges ndDecades c.toNat

/-- `[0-5]` : the literal class of the first minutes/seconds digit
(code points 0x30..0x35 only). -/
def isMS1 (c : Char) : Bool := 48 ≤ c.toNat && c.toNat ≤ 53

/-- `\s` : any Unicode whitespace character. -/
def isSpaceC (c : Char) : Bool := inRanges wsRanges c.toNat

/-- `[-|+;]` : the separator class of the segment pattern. -/
def isSepC (c : Char) : Bool :=
  c.toNat = 45 || c.toNat = 124 || c.toNat = 43 || c.toNat = 59

/-- Decimal value of a Unicode digit character (as Python's `int` gives
it): its offset inside its decade. -/
def digitVal (c : Char) : Nat :=
  match ndDecades.find? (fun p => p.1 ≤ c.toNat && c.toNat ≤ p.2) with
  | some p => c.toNat - p.1
  | none => 0

/-- Value of a two-digit group, as Python's `int` on the captured text. -/
def dv (a b : Char) : Nat := digitVal a * 10 + digitVal b

/-! ## The backtracking matcher for the segment pattern (source embedding)

Each `Cands` function returns the list of possible (captures, remaining
input) pairs in backtracking priority order; the overall match is the
first candidate whose continuation succeeds, as in Python's `re` engine. -/

/-- Consume `(\d\x7b2\x7d)` at the front. -/
def takeHH : List Char → Option (Nat × List Char)
  | a :: b :: r => if isDigitC a && isDigitC b then some (dv a b, r) else none
  | _ => none

/-- Consume `([0-5]\d)` at the front. -/
def takeMS : List Char → Option (Nat × List Char)
  | a :: b :: r => if isMS1 a && isDigitC b then some (dv a b, r) else none
  | _ => none

/-- Candidates of `:?` (greedy: consuming the colon has priority). -/
def colonCands : List Char → List (List Char)
  | [] => [[]]
  | c :: r => if c = ':' then [r, c :: r] else [c :: r]

/-- Candidates of `([0-5]\d)` (at most one). -/
def msCands (l : List Char) : List (Nat × List Char) :=
  match takeMS l with
  | some p => [p]
  | none => []

/-- Candidates of `:?([0-5]\d):?([0-5]\d)` given an already-captured (or
defaulted) hours value `h`. -/
def tsTail (h : Nat) (l : List Char) : List ((Nat × Nat × Nat) × List Char) :=
  (colonCands l).flatMap (fun l1 =>
    (msCands l1).flatMap (fun p =>
      (colonCands p.2).flatMap (fun l3 =>
        (msCands l3).map (fun q => ((h, p.1, q.1), q.2)))))

/-- Candidates of one timestamp `(\d\x7b2\x7d)?:?([0-5]\d):?([0-5]\d)`;
an absent hours group contributes 0 (as `int(x) if x else 0` does). -/
def tsCands (l : List Char) : List ((Nat × Nat × Nat) × List Char) :=
  (match takeHH l with
   | some p => tsTail p.1 p.2
   | none => []) ++ tsTail 0 l

/-- Drop the (greedy, deterministic here) `\s*` prefix. -/
def dropWS : List Char → List Char
  | [] => []
  | c :: r => if isSpaceC c then dropWS r else c :: r

/-- Consume `\s*[-|+;]\s*`. -/
def sepConsume (l : List Char) : Option (List Char) :=
  match dropWS l with
  | [] => none
  | c :: r => if isSepC c then some (dropWS r) else none

/-- `$` under Python semantics: end of input, or just before one final
newline. -/
def atEnd : List Char → Bool
  | [] => true
  | [c] => c = '\n'
  | _ => false

/-- The anchored match of the whole segment pattern, returning the six
captured groups as two (hours, minutes, seconds) triples. -/
def segMatch (l : List Char) : Option ((Nat × Nat × Nat) × (Nat × Nat × Nat)) :=
  (tsCands l).findSome? (fun c1 =>
    match sepConsume c1.2 with
    | none => none
    | some r2 =>
      (tsCands r2).findSome? (fun c2 =>
        if atEnd c2.2 then some (c1.1, c2.1) else none))

/-! ## `timestamp_seconds` and `segment_seconds` (source embedding) -/

/-- `timestamp_seconds(seconds, minutes, hours)`: permissive conversion to
a total second count; a falsy component (absent or zero) contributes 0. -/
def timestamp_seconds (seconds minutes hours : Option Nat) : Nat :=
  (match hours with
   | none => 0
   | some h => if h = 0 then 0 else h * 3600) +
  (match minutes with
   | none => 0
   | some m => if m = 0 then 0 else m * 60) +
  (match seconds with
   | none => 0
   | some s => if s = 0 then 0 else s)

/-- Total seconds of one captured (hours, minutes, seconds) triple, the way
`segment_seconds` feeds it to `timestamp_seconds`. -/
def tsVal (g : Nat × Nat × Nat) : Nat :=
  timestamp_seconds (some g.2.2) (some g.2.1) (some g.1)

/-- The two errors `segment_seconds` raises (both `ValueError` in Python). -/
inductive SegErr where
  | formatError
  | rangeError
deriving DecidableEq

/-- `segment_seconds(string)`: match the segment pattern, else
`formatError`; convert both timestamps; `rangeError` if the end precedes
the start; otherwise return the (start, end) pair. -/
def segment_seconds (s : String) : Except SegErr (Nat × Nat) :=
  match segMatch s.toList with
  | none => .error .formatError
  | some g =>
    if tsVal g.2 < tsVal g.1 then .error .rangeError
    else .ok (tsVal g.1, tsVal g.2)

/-- `is_valid_segment(string)`: empty input is valid by convention; other
input is valid iff `segment_seconds` succeeds (its errors are swallowed). -/
def is_valid_segment (s : String) : Bool :=
  if s = "" then true
  else
    match segment_seconds s with
    | .ok _ => true
    | .error _ => false

/-! ## Spec-side grammar of a segment literal

Written from the spec's grammar
`^(\d\x7b2\x7d)?:?([0-5]\d):?([0-5]\d)\s*[-|+;]\s*(\d\x7b2\x7d)?:?([0-5]\d):?([0-5]\d)$`
with `\d` and `\s` read as Python reads them on a `str` pattern (any
Unicode decimal digit / whitespace): a timestamp is one of the eight exact
shapes obtained by choosing the optional hours group and the two optional
colons (shapes that would need a colon where none can be derived are
impossible); the two timestamps are separated by exactly one separator
character with whitespace around it, and `$` tolerates one final newline. -/

/-- Exact-match shapes of `(\d\x7b2\x7d)?:?([0-5]\d):?([0-5]\d)` with their
captured values (hours, minutes, seconds); an absent hours group is 0. -/
def tsShape : List Char → Option (Nat × Nat × Nat)
  | [] => none
  | [_] => none
  | [_, _] => none
  | [_, _, _] => none
  | [a, b, c, d] =>
      if isMS1 a = true ∧ isDigitC b = true ∧ isMS1 c = true ∧ isDigitC d = true then
        some (0, dv a b, dv c d)
      else none
  | [a, b, c, d, e] =>
      if a = ':' ∧ isMS1 b = true ∧ isDigitC c = true ∧ isMS1 d = true ∧ isDigitC e = true then
        some (0, dv b c, dv d e)
      else if isMS1 a = true ∧ isDigitC b = true ∧ c = ':' ∧ isMS1 d = true ∧ isDigitC e = true then
        some (0, dv a b, dv d e)
      else none
  | [a, b, c, d, e, f] =>
      if a = ':' ∧ isMS1 b = true ∧ isDigitC c = true ∧ d = ':' ∧ isMS1 e = true ∧ isDigitC f = true then
        some (0, dv b c, dv e f)
      else if isDigitC a = true ∧ isDigitC b = true ∧ isMS1 c = true ∧ isDigitC d = true ∧
          isMS1 e = true ∧ isDigitC f = true then
        some (dv a b, dv c d, dv e f)
      else none
  | [a, b, c, d, e, f, g] =>
      if isDigitC a = true ∧ isDigitC b = true ∧ c = ':' ∧ isMS1 d = true ∧ isDigitC e = true ∧
          isMS1 f = true ∧ isDigitC g = true then
        some (dv a b, dv d e, dv f g)
      else if isDigitC a = true ∧ isDigitC b = true ∧ isMS1 c = true ∧ isDigitC d = true ∧
          e = ':' ∧ isMS1 f = true ∧ isDigitC g = true then
        some (dv a b, dv c d, dv f g)
      else none
  | [a, b, c, d, e, f, g, h] =>
      if isDigitC a = true ∧ isDigitC b = true ∧ c = ':' ∧ isMS1 d = true ∧ isDigitC e = true ∧
          f = ':' ∧ isMS1 g = true ∧ isDigitC h = true then
        some (dv a b, dv d e, dv g h)
      else none
  | _ :: _ :: _ :: _ :: _ :: _ :: _ :: _ :: _ :: _ => none

/-- Strip one trailing newline (the `$`-before-final-newline tolerance). -/
def stripNL (l : List Char) : List Char :=
  match l.reverse with
  | [] => l
  | c :: r => if c = '\n' then r.reverse else l

/-- Remove trailing whitespace. -/
def rtrim (l : List Char) : List Char := (l.reverse.dropWhile isSpaceC).reverse

/-- Remove leading whitespace. -/
def ltrim (l : List Char) : List Char := l.dropWhile isSpaceC

/-- Spec-side segment parse: after stripping one optional final newline,
the input must consist of a timestamp, optional whitespace, exactly one
separator character, optional whitespace, and a second timestamp. -/
def segSpecParse (l : List Char) : Option ((Nat × Nat × Nat) × (Nat × Nat × Nat)) :=
  match (stripNL l).dropWhile (fun x => !(isSepC x)) with
  | [] => none
  | _ :: right =>
    if right.any isSepC then none
    else
      match tsShape (rtrim ((stripNL l).takeWhile (fun x => !(isSepC x)))), tsShape (ltrim right) with
      | some v1, some v2 => some (v1, v2)
      | _, _ => none

/-! ## The claim's ASCII reading of the grammar

The claim words the grammar as "MM and SS two digits in [00,59], HH
optional two digits", i.e. with ASCII digits `0`..`9` and ASCII
whitespace.  These definitions render that reading, for comparison with
the program's Unicode behaviour. -/

/-- An ASCII digit `0`..`9`. -/
def isDigitAscii (c : Char) : Bool := 48 ≤ c.toNat && c.toNat ≤ 57

/-- ASCII whitespace: space and tab..carriage-return. -/
def isSpaceAscii (c : Char) : Bool := c.toNat = 32 || (9 ≤ c.toNat && c.toNat ≤ 13)

/-- The timestamp shapes of the ASCII reading (as `tsShape`, with ASCII
digits only; the values of ASCII digits agree with `digitVal`). -/
def tsShapeAscii : List Char → Option (Nat × Nat × Nat)
  | [] => none
  | [_] => none
  | [_, _] => none
  | [_, _, _] => none
  | [a, b, c, d] =>
      if isMS1 a = true ∧ isDigitAscii b = true ∧ isMS1 c = true ∧ isDigitAscii d = true then
        some (0, dv a b, dv c d)
      else none
  | [a, b, c, d, e] =>
      if a = ':' ∧ isMS1 b = true ∧ isDigitAscii c = true ∧ isMS1 d = true ∧
          isDigitAscii e = true then
        some (0, dv b c, dv d e)
      else if isMS1 a = true ∧ isDigitAscii b = true ∧ c = ':' ∧ isMS1 d = true ∧
          isDigitAscii e = true then
        some (0, dv a b, dv d e)
      else none
  | [a, b, c, d, e, f] =>
      if a = ':' ∧ isMS1 b = true ∧ isDigitAscii c = true ∧ d = ':' ∧ isMS1 e = true ∧
          isDigitAscii f = true then
        some (0, dv b c, dv e f)
      else if isDigitAscii a = true ∧ isDigitAscii b = true ∧ isMS1 c = true ∧
          isDigitAscii d = true ∧ isMS1 e = true ∧ isDigitAscii f = true then
        some (dv a b, dv c d, dv e f)
      else none
  | [a, b, c, d, e, f, g] =>
      if isDigitAscii a = true ∧ isDigitAscii b = true ∧ c = ':' ∧ isMS1 d = true ∧
          isDigitAscii e = true ∧ isMS1 f = true ∧ isDigitAscii g = true then
        some (dv a b, dv d e, dv f g)
      else if isDigitAscii a = true ∧ isDigitAscii b = true ∧ isMS1 c = true ∧
          isDigitAscii d = true ∧ e = ':' ∧ isMS1 f = true ∧ isDigitAscii g = true then
        some (dv a b, dv c d, dv f g)
      else none
  | [a, b, c, d, e, f, g, h] =>
      if isDigitAscii a = true ∧ isDigitAscii b = true ∧ c = ':' ∧ isMS1 d = true ∧
          isDigitAscii e = true ∧ f = ':' ∧ isMS1 g = true ∧ isDigitAscii h = true then
        some (dv a b, dv d e, dv g h)
      else none
  | _ :: _ :: _ :: _ :: _ :: _ :: _ :: _ :: _ :: _ => none

/-- Remove trailing ASCII whitespace. -/
def rtrimAscii (l : List Char) : List Char := (l.reverse.dropWhile isSpaceAscii).reverse

/-- Remove leading ASCII whitespace. -/
def ltrimAscii (l : List Char) : List Char := l.dropWhile isSpaceAscii

/-- The segment parse of the claim's ASCII reading (as `segSpecParse`,
with ASCII digit and whitespace classes). -/
def segSpecParseAscii (l : List Char) : Option ((Nat × Nat × Nat) × (Nat × Nat × Nat)) :=
  match (stripNL l).dropWhile (fun x => !(isSepC x)) with
  | [] => none
  | _ :: right =>
    if right.any isSepC then none
    else
      match tsShapeAscii (rtrimAscii ((stripNL l).takeWhile (fun x => !(isSepC x)))),
          tsShapeAscii (ltrimAscii right) with
      | some v1, some v2 => some (v1, v2)
      | _, _ => none

/-- A decomposition of `l` as the segment pattern derives it: timestamp,
whitespace, separator, whitespace, timestamp, optional final newline. -/
def Decomp (l : List Char) (g : (Nat × Nat × Nat) × (Nat × Nat × Nat)) : Prop :=
  ∃ t1 w1 c w2 t2 nl,
    l = t1 ++ w1 ++ c :: (w2 ++ (t2 ++ nl)) ∧
    tsShape t1 = some g.1 ∧ tsShape t2 = some g.2 ∧
    (∀ x ∈ w1, isSpaceC x = true) ∧ (∀ x ∈ w2, isSpaceC x = true) ∧
    isSepC c = true ∧ (nl = [] ∨ nl = ['\n'])

/-! ## Rendering of second counts (spec side, for the round-trip claim) -/

/-- Two-digit zero-padded rendering of `n < 100`. -/
def pad2 (n : Nat) : List Char := [Nat.digitChar (n / 10), Nat.digitChar (n % 10)]

/-- `HH:MM:SS` rendering of a second count below 360000. -/
def renderTS (n : Nat) : List Char :=
  pad2 (n / 3600) ++ ':' :: (pad2 (n % 3600 / 60) ++ ':' :: pad2 (n % 60))

/-- `HH:MM:SS-HH:MM:SS` rendering of a (start, end) pair. -/
def renderSegment (a b : Nat) : String :=
  String.mk (renderTS a ++ '-' :: renderTS b)

/-! ## The metadata data model (source embedding)

A `Metadata` is a Python `dict` restricted to the five known keys; a field
of `none` models an absent key.  A row value read back from a short CSV
row (Python's `restval=None`) is also collapsed to an absent key; no claim
exercises that corner. -/

/-- One metadata record: the five possible keys of the dictionary. -/
structure Metadata where
  filepath : Option String
  event_name : Option String
  title : Option String
  speakers : Option (List String)
  segments : Option (List String)
deriving DecidableEq

/-- The record with no keys at all (`dict()` — falsy in Python). -/
def Metadata.empty : Metadata := ⟨none, none, none, none, none⟩

/-- Python truthiness of the record: the dictionary is non-empty. -/
def Metadata.truthy (m : Metadata) : Bool :=
  m.filepath.isSome || m.event_name.isSome || m.title.isSome ||
    m.speakers.isSome || m.segments.isSome

/-- All five keys are present. -/
def Metadata.complete (m : Metadata) : Bool :=
  m.filepath.isSome && m.event_name.isSome && m.title.isSome &&
    m.speakers.isSome && m.segments.isSome

/-- A dictionary value: either a string field or a list-of-strings field. -/
inductive MValue where
  | str (s : String)
  | strList (l : List String)
deriving DecidableEq

/-- `item[key]` on a record: `some` the stored value, `none` for a missing
key (Python raises `KeyError`). -/
def Metadata.get (m : Metadata) (k : String) : Option MValue :=
  if k = "filepath" then m.filepath.map MValue.str
  else if k = "event_name" then m.event_name.map MValue.str
  else if k = "title" then m.title.map MValue.str
  else if k = "speakers" then m.speakers.map MValue.strList
  else if k = "segments" then m.segments.map MValue.strList
  else none

/-- The fixed CSV header (`MetadataList.KEYS`). -/
def KEYS : List String := ["filepath", "event_name", "title", "speakers", "segments"]

/-- The errors the CSV paths can raise. -/
inductive PyErr where
  | ioError
  | keyError
  | typeError
deriving DecidableEq

/-- `MetadataList.add_item(data)`: wrap the given mapping, append it, and
return it (no field is defaulted). -/
def add_item (ms : List Metadata) (data : Metadata) : List Metadata × Metadata :=
  (ms ++ [data], data)

/-- `MetadataList.get_item(key, value)`: linear scan; falsy records are
skipped; a truthy record missing `key` raises `KeyError`; the first record
whose `key` equals `value` is returned, else `None`. -/
def get_item (ms : List Metadata) (k : String) (v : MValue) : Except PyErr (Option Metadata) :=
  match ms with
  | [] => .ok none
  | m :: rest =>
    if m.truthy then
      match m.get k with
      | none => .error .keyError
      | some mv => if mv = v then .ok (some m) else get_item rest k v
    else get_item rest k v

/-! ## `';'.join` and `.split(';')` -/

/-- `';'.join` at the character-list level. -/
def joinSemiL : List (List Char) → List Char
  | [] => []
  | [x] => x
  | x :: xs => x ++ ';' :: joinSemiL xs

/-- `.split(';')` at the character-list level: always returns at least one
piece; an empty input yields one empty piece. -/
def splitSemiL : List Char → List (List Char)
  | [] => [[]]
  | c :: rest =>
    match splitSemiL rest with
    | [] => []
    | h :: t => if c = ';' then [] :: h :: t else (c :: h) :: t

/-- Python `';'.join(l)`. -/
def joinSemi (l : List String) : String := String.mk (joinSemiL (l.map String.toList))

/-- Python `s.split(';')`. -/
def splitSemi (s : String) : List String := (splitSemiL s.toList).map String.mk

/-- No item of the list contains the `';'` delimiter. -/
def noSemiItems (l : List String) : Bool := l.all (fun s => s.toList.all (fun c => !(c = ';')))

/-! ## CSV serialization (source embedding, at the level of cell tables)

`csv` with `QUOTE_ALL` encodes and decodes each cell losslessly, so
`write_to_csv` is modelled as producing the table of cell rows (header
first) and `read_from_csv` as consuming such a table.  `encodeRow` gives
the literal text of one written row (quote-always, `"` doubled). -/

/-- Build the row dict of one truthy record: `KeyError` (`none`) if one of
the five keys is missing; an empty `speakers`/`segments` list is falsy, so
its cell is left unset and `DictWriter` fills the empty-string `restval`. -/
def buildRow (m : Metadata) : Option (List String) :=
  match m.filepath, m.event_name, m.title, m.speakers, m.segments with
  | some fp, some en, some ti, some sp, some sg =>
      some [fp, en, ti,
            if sp.isEmpty then "" else joinSemi sp,
            if sg.isEmpty then "" else joinSemi sg]
  | _, _, _, _, _ => none

/-- Build every row in order, stopping at the first `KeyError` (the Python
loop raises out of `write_to_csv` at the first bad record). -/
def mapO {α β : Type} (f : α → Option β) : List α → Option (List β)
  | [] => some []
  | x :: xs =>
    match f x, mapO f xs with
    | some y, some ys => some (y :: ys)
    | _, _ => none

/-- `MetadataList.write_to_csv`: one row per truthy record, in order,
after the fixed header; `none` models the `KeyError` escape. -/
def write_to_csv (ms : List Metadata) : Option (List (List String)) :=
  match mapO buildRow (ms.filter (fun m => m.truthy)) with
  | some rows => some (KEYS :: rows)
  | none => none

/-- The quote-always text of one cell: `"` is doubled, the cell wrapped in
quotes. -/
def quoteCell (s : String) : String :=
  "\"" ++ String.mk (s.toList.flatMap (fun c => if c = '"' then ['"', '"'] else [c])) ++ "\""

/-- The literal text of one written CSV row (without the terminator). -/
def encodeRow (cells : List String) : String :=
  String.intercalate "," (cells.map quoteCell)

/-- `dict(zip(fieldnames, row))` with `restval=None`: pair each field name
with its cell, `none` when the row is short; extra cells are dropped (they
go under the `restkey`, which is not one of the five keys). -/
def zipRow : List String → List String → List (String × Option String)
  | [], _ => []
  | n :: ns, [] => (n, none) :: zipRow ns []
  | n :: ns, v :: vs => (n, some v) :: zipRow ns vs

/-- Dictionary lookup on the zipped row (a later duplicate key wins, as in
`dict`). -/
def dictGet (d : List (String × Option String)) (k : String) : Option (Option String) :=
  ((d.filter (fun p => p.1 = k)).getLast?).map (fun p => p.2)

/-- Process one data row: `row['speakers'].split(';')` and
`row['segments'].split(';')` (missing key: `KeyError`; `None` value:
`TypeError`), then `add_item` the dict. -/
def readRow (fns : List String) (cells : List String) : Except PyErr Metadata :=
  match dictGet (zipRow fns cells) "speakers" with
  | none => .error .keyError
  | some none => .error .typeError
  | some (some spRaw) =>
    match dictGet (zipRow fns cells) "segments" with
    | none => .error .keyError
    | some none => .error .typeError
    | some (some sgRaw) =>
      .ok ⟨(dictGet (zipRow fns cells) "filepath").bind id,
           (dictGet (zipRow fns cells) "event_name").bind id,
           (dictGet (zipRow fns cells) "title").bind id,
           some (splitSemi spRaw), some (splitSemi sgRaw)⟩

/-- `MetadataList.read_from_csv`: the source is either unreadable
(`IOError`) or a table whose first row is the header; each non-blank data
row is processed and appended; the header itself is never validated. -/
def read_from_csv (src : Except PyErr (List (List String))) (ms : List Metadata) :
    Except PyErr (List Metadata) :=
  match src with
  | .error e => .error e
  | .ok [] => .ok ms
  | .ok (header :: rows) =>
      rows.foldlM (fun acc cells =>
        if cells.isEmpty then pure acc
        else (readRow header cells).map (fun m => (add_item acc m).1)) ms

/-- What one record becomes after a write/read round trip: an empty
`speakers`/`segments` sequence comes back as the one-element `[""]`. -/
def fixEmpty : List String → List String
  | [] => [""]
  | l => l

/-- The round-tripped form of a complete record. -/
def fixRec (m : Metadata) : Metadata :=
  ⟨m.filepath, m.event_name, m.title,
   some (fixEmpty (m.speakers.getD [])), some (fixEmpty (m.segments.getD []))⟩

/-- The spec-side description of the row written for a complete record:
field order fixed, multi-valued fields joined with `';'`, an empty
sequence yielding an empty cell. -/
def mkRow (m : Metadata) : List String :=
  [m.filepath.getD "", m.event_name.getD "", m.title.getD "",
   joinSemi (m.speakers.getD []), joinSemi (m.segments.getD [])]

/-! ## `VLCPlayer` (scoped process wrapper)

The `with`-statement protocol is embedded as a trace transformer: Python
runs `__enter__`, then the body (which may stop with an error), and runs
`__exit__` on every exit path, normal or unwinding.  `__enter__` opens the
discard sink and spawns the player; `__exit__` terminates the player and
closes the sink. -/

/-- Observable resource events of the player wrapper. -/
inductive PEvent where
  | openDevnull
  | spawnVlc
  | terminateVlc
  | closeDevnull
deriving DecidableEq

/-- Events of `VLCPlayer.__enter__`. -/
def vlcAcquire : List PEvent := [PEvent.openDevnull, PEvent.spawnVlc]

/-- Events of `VLCPlayer.__exit__`. -/
def vlcRelease : List PEvent := [PEvent.terminateVlc, PEvent.closeDevnull]

/-- `with VLCPlayer(path): body` — the body's trace and outcome are given;
the release events run whether the body finished normally or unwound. -/
def withVLCPlayer (body : List PEvent × Except PyErr Unit) :
    List PEvent × Except PyErr Unit :=
  (vlcAcquire ++ body.1 ++ vlcRelease, body.2)

/-! ## Concrete records used by individual claims -/

/-- The record of the C3 serialization scenario. -/
def c3Rec : Metadata :=
  ⟨some "t.mp3", some "E", some "T", some ["A", "B"], some ["00:10-00:20"]⟩

/-- A complete record whose speaker name contains the `';'` delimiter and
whose segments list is empty. -/
def c1Cex : Metadata :=
  ⟨some "a.mp3", some "E", some "T", some ["A;B"], some []⟩

/-- A collection exercising empty and multi-valued fields. -/
def c1List : List Metadata :=
  [⟨some "a.mp3", some "Conf", some "Keynote", some [], some ["00:10-05:00", "10:00-12:30"]⟩,
   ⟨some "b.mp3", some "Conf", some "Talk", some ["Alice", "Bob"], some []⟩]

/-- A complete record used by the C10 row-count instance. -/
def c10Rec : Metadata :=
  ⟨some "b.mp3", some "E2", some "T2", some ["S"], some []⟩

/-- Two records sharing one filepath (C7 duplicate lookup). -/
def c7a : Metadata := ⟨some "dup.mp3", some "E", some "first", some [], some []⟩

/-- Second record with the duplicated filepath. -/
def c7b : Metadata := ⟨some "dup.mp3", some "E", some "second", some [], some []⟩

/-! ## Generic list lemmas -/

theorem findSomeP_sound {α β : Type} {l : List α} {f : α → Option β} {b : β}
    (h : l.findSome? f = some b) : ∃ a ∈ l, f a = some b := by
  induction l with
  | nil => simp [List.findSome?] at h
  | cons x xs ih =>
    rw [List.findSome?_cons] at h
    cases hx : f x with
    | some y =>
      rw [hx] at h
      simp at h
      exact ⟨x, List.mem_cons_self x xs, by rw [hx, h]⟩
    | none =>
      rw [hx] at h
      simp at h
      obtain ⟨a, ha, hfa⟩ := ih h
      exact ⟨a, List.mem_cons_of_mem x ha, hfa⟩

theorem findSomeP_isSome {α β : Type} {l : List α} {f : α → Option β} {a : α} {b : β}
    (ha : a ∈ l) (hb : f a = some b) : ∃ c, l.findSome? f = some c := by
  induction l with
  | nil => cases ha
  | cons x xs ih =>
    cases hx : f x with
    | some y => exact ⟨y, by rw [List.findSome?_cons, hx]⟩
    | none =>
      rcases List.mem_cons.mp ha with rfl | ha2
      · rw [hx] at hb; cases hb
      · obtain ⟨c, hc⟩ := ih ha2
        refine ⟨c, ?_⟩
        rw [List.findSome?_cons, hx]
        exact hc

theorem takeWhileP_all_append {α : Type} {p : α → Bool} {X : List α} (Z : List α)
    (hX : ∀ x ∈ X, p x = true) : (X ++ Z).takeWhile p = X ++ Z.takeWhile p := by
  induction X with
  | nil => simp
  | cons x xs ih =>
    have hx := hX x (List.mem_cons_self x xs)
    simp only [List.cons_append, List.takeWhile_cons, hx, if_true]
    rw [ih (fun y hy => hX y (List.mem_cons_of_mem x hy))]

theorem dropWhileP_all_append {α : Type} {p : α → Bool} {X : List α} (Z : List α)
    (hX : ∀ x ∈ X, p x = true) : (X ++ Z).dropWhile p = Z.dropWhile p := by
  induction X with
  | nil => simp
  | cons x xs ih =>
    have hx := hX x (List.mem_cons_self x xs)
    simp only [List.cons_append, List.dropWhile_cons, hx, if_true]
    exact ih (fun y hy => hX y (List.mem_cons_of_mem x hy))

theorem dropWhileP_head_false {α : Type} {p : α → Bool} {l : List α} {c : α} {r : List α}
    (h : l.dropWhile p = c :: r) : p c = false := by
  induction l with
  | nil => simp [List.dropWhile] at h
  | cons x xs ih =>
    rw [List.dropWhile_cons] at h
    by_cases hx : p x = true
    · rw [if_pos hx] at h; exact ih h
    · rw [if_neg hx] at h
      cases h
      exact Bool.not_eq_true _ ▸ hx

theorem takeWhileP_decomp {α : Type} (p : α → Bool) (l : List α) :
    l = l.takeWhile p ++ l.dropWhile p ∧ ∀ x ∈ l.takeWhile p, p x = true :=
  ⟨(List.takeWhile_append_dropWhile p l).symm, fun _ hx => List.mem_takeWhile_imp hx⟩

theorem mapO_length {α β : Type} {f : α → Option β} {l : List α} {l2 : List β}
    (h : mapO f l = some l2) : l2.length = l.length := by
  induction l generalizing l2 with
  | nil =>
    simp [mapO] at h
    simp [← h]
  | cons x xs ih =>
    rw [mapO] at h
    cases hx : f x with
    | none => rw [hx] at h; simp at h
    | some y =>
      rw [hx] at h
      cases hxs : mapO f xs with
      | none => rw [hxs] at h; simp at h
      | some ys =>
        rw [hxs] at h
        simp at h
        simp [← h, ih hxs]

theorem mapO_of_all {α β : Type} {f : α → Option β} {g : α → β} {l : List α}
    (h : ∀ x ∈ l, f x = some (g x)) : mapO f l = some (l.map g) := by
  induction l with
  | nil => simp [mapO]
  | cons x xs ih =>
    rw [mapO, h x (List.mem_cons_self x xs), ih (fun y hy => h y (List.mem_cons_of_mem x hy))]
    simp

/-! ## Character-class facts -/

theorem isMS1_isDigitC {c : Char} (h : isMS1 c = true) : isDigitC c = true := by
  simp [isMS1] at h
  unfold isDigitC inRanges
  rw [List.any_eq_true]
  refine ⟨(48, 57), by rw [ndDecades]; exact List.mem_cons_self _ _, ?_⟩
  simp
  omega

/-- Every Unicode digit decade lies in one of these blocks; the blocks
avoid the colon, the separators, the newline and all whitespace. -/
theorem isDigitC_gaps {c : Char} (h : isDigitC c = true) :
    (48 ≤ c.toNat ∧ c.toNat ≤ 57) ∨ (1632 ≤ c.toNat ∧ c.toNat ≤ 4249) ∨
    (6112 ≤ c.toNat ∧ c.toNat ≤ 7257) ∨ 42528 ≤ c.toNat := by
  unfold isDigitC inRanges at h
  rw [List.any_eq_true] at h
  obtain ⟨p, hp, hcond⟩ := h
  obtain ⟨p1, p2⟩ := p
  simp [ndDecades] at hp
  simp at hcond
  omega

theorem isDigitC_not_space {c : Char} (h : isDigitC c = true) : isSpaceC c = false := by
  have hg := isDigitC_gaps h
  unfold isSpaceC inRanges
  rw [Bool.eq_false_iff]
  intro hcon
  rw [List.any_eq_true] at hcon
  obtain ⟨p, hp, hcond⟩ := hcon
  obtain ⟨p1, p2⟩ := p
  simp [wsRanges] at hp
  simp at hcond
  omega

theorem isDigitC_not_sep {c : Char} (h : isDigitC c = true) : isSepC c = false := by
  have hg := isDigitC_gaps h
  simp [isSepC]
  omega

theorem isDigitC_ne_colon {c : Char} (h : isDigitC c = true) : ¬ c = ':' := by
  intro he
  subst he
  exact absurd h (by decide)

theorem isDigitC_ne_nl {c : Char} (h : isDigitC c = true) : ¬ c = '\n' := by
  intro he
  subst he
  exact absurd h (by decide)

theorem isSepC_not_space {c : Char} (h : isSepC c = true) : isSpaceC c = false := by
  simp [isSepC] at h
  unfold isSpaceC inRanges
  rw [Bool.eq_false_iff]
  intro hcon
  rw [List.any_eq_true] at hcon
  obtain ⟨p, hp, hcond⟩ := hcon
  obtain ⟨p1, p2⟩ := p
  simp [wsRanges] at hp
  simp at hcond
  omega

theorem isSpaceC_not_sep {c : Char} (h : isSpaceC c = true) : isSepC c = false := by
  unfold isSpaceC inRanges at h
  rw [List.any_eq_true] at h
  obtain ⟨p, hp, hcond⟩ := h
  obtain ⟨p1, p2⟩ := p
  simp [wsRanges] at hp
  simp at hcond
  simp [isSepC]
  omega

/-! ## The two-character consumers -/

theorem takeHH_sound {l : List Char} {v : Nat} {r : List Char}
    (h : takeHH l = some (v, r)) :
    ∃ a b, l = a :: b :: r ∧ isDigitC a = true ∧ isDigitC b = true ∧ v = dv a b := by
  match l with
  | [] => simp [takeHH] at h
  | [a] => simp [takeHH] at h
  | a :: b :: t =>
    rw [takeHH] at h
    by_cases hc : (isDigitC a && isDigitC b) = true
    · rw [if_pos hc] at h
      obtain ⟨h1, h2⟩ := Prod.mk.injEq .. ▸ Option.some.injEq .. ▸ h
      have hab := Bool.and_eq_true_iff.mp hc
      exact ⟨a, b, by rw [h2], hab.1, hab.2, h1.symm⟩
    · rw [if_neg hc] at h
      cases h

theorem takeHH_complete {a b : Char} (r : List Char)
    (ha : isDigitC a = true) (hb : isDigitC b = true) :
    takeHH (a :: b :: r) = some (dv a b, r) := by
  rw [takeHH, if_pos (by rw [ha, hb]; rfl)]

theorem takeMS_sound {l : List Char} {v : Nat} {r : List Char}
    (h : takeMS l = some (v, r)) :
    ∃ a b, l = a :: b :: r ∧ isMS1 a = true ∧ isDigitC b = true ∧ v = dv a b := by
  match l with
  | [] => simp [takeMS] at h
  | [a] => simp [takeMS] at h
  | a :: b :: t =>
    rw [takeMS] at h
    by_cases hc : (isMS1 a && isDigitC b) = true
    · rw [if_pos hc] at h
      obtain ⟨h1, h2⟩ := Prod.mk.injEq .. ▸ Option.some.injEq .. ▸ h
      have hab := Bool.and_eq_true_iff.mp hc
      exact ⟨a, b, by rw [h2], hab.1, hab.2, h1.symm⟩
    · rw [if_neg hc] at h
      cases h

theorem takeMS_complete {a b : Char} (r : List Char)
    (ha : isMS1 a = true) (hb : isDigitC b = true) :
    takeMS (a :: b :: r) = some (dv a b, r) := by
  rw [takeMS, if_pos (by rw [ha, hb]; rfl)]

theorem msCands_mem {l : List Char} {p : Nat × List Char} :
    p ∈ msCands l ↔ takeMS l = some p := by
  rw [msCands]
  cases h : takeMS l with
  | none => simp
  | some q => simp [eq_comm]

theorem colonCands_mem {l r : List Char} (h : r ∈ colonCands l) :
    r = l ∨ l = ':' :: r := by
  match l with
  | [] => simp [colonCands] at h; simp [h]
  | c :: t =>
    rw [colonCands] at h
    by_cases hc : c = ':'
    · rw [if_pos hc] at h
      rcases List.mem_cons.mp h with h1 | h1
      · right; rw [hc, h1]
      · left; simpa using h1
    · rw [if_neg hc] at h
      left; simpa using h

theorem colonCands_self (l : List Char) : l ∈ colonCands l := by
  match l with
  | [] => simp [colonCands]
  | c :: t =>
    rw [colonCands]
    by_cases hc : c = ':'
    · rw [if_pos hc]; simp
    · rw [if_neg hc]; simp

theorem colonCands_cons (r : List Char) : r ∈ colonCands (':' :: r) := by
  rw [colonCands, if_pos rfl]
  simp

/-! ## Whitespace skipping -/

theorem dropWS_decomp (l : List Char) :
    ∃ w, l = w ++ dropWS l ∧ ∀ x ∈ w, isSpaceC x = true := by
  induction l with
  | nil => exact ⟨[], rfl, by simp⟩
  | cons c t ih =>
    by_cases hc : isSpaceC c = true
    · obtain ⟨w, hw, hws⟩ := ih
      refine ⟨c :: w, ?_, ?_⟩
      · rw [dropWS, if_pos hc]
        simpa using hw
      · intro x hx
        rcases List.mem_cons.mp hx with rfl | hx2
        · exact hc
        · exact hws x hx2
    · refine ⟨[], ?_, by simp⟩
      rw [dropWS, if_neg hc]
      simp

theorem dropWS_head_false {l c r} (h : dropWS l = c :: r) : isSpaceC c = false := by
  induction l with
  | nil => simp [dropWS] at h
  | cons x t ih =>
    rw [dropWS] at h
    by_cases hx : isSpaceC x = true
    · rw [if_pos hx] at h; exact ih h
    · rw [if_neg hx] at h
      cases h
      exact Bool.not_eq_true _ ▸ hx

theorem dropWS_all_append {w : List Char} (l : List Char)
    (hw : ∀ x ∈ w, isSpaceC x = true) : dropWS (w ++ l) = dropWS l := by
  induction w with
  | nil => simp
  | cons c t ih =>
    have hc := hw c (List.mem_cons_self c t)
    rw [List.cons_append, dropWS, if_pos hc]
    exact ih (fun x hx => hw x (List.mem_cons_of_mem c hx))

theorem dropWS_no_space {c : Char} (l : List Char) (h : isSpaceC c = false) :
    dropWS (c :: l) = c :: l := by
  rw [dropWS, if_neg (by rw [h]; simp)]

/-! ## One timestamp: the backtracking candidates against the shapes -/

theorem tsTail_sound {h : Nat} {l : List Char} {v : Nat × Nat × Nat} {r : List Char}
    (hm : (v, r) ∈ tsTail h l) :
    ∃ c1 a b c2 c d,
      l = c1 ++ a :: b :: (c2 ++ c :: d :: r) ∧
      (c1 = [] ∨ c1 = [':']) ∧ (c2 = [] ∨ c2 = [':']) ∧
      isMS1 a = true ∧ isDigitC b = true ∧ isMS1 c = true ∧ isDigitC d = true ∧
      v = (h, dv a b, dv c d) := by
  simp only [tsTail, List.mem_flatMap, List.mem_map] at hm
  obtain ⟨l1, hl1, p, hp, l3, hl3, q, hq, heq⟩ := hm
  obtain ⟨pv, pr⟩ := p
  obtain ⟨qv, qr⟩ := q
  obtain ⟨a, b, he1, ha, hb, hv1⟩ := takeMS_sound (msCands_mem.mp hp)
  obtain ⟨c, d, he3, hc, hd, hv3⟩ := takeMS_sound (msCands_mem.mp hq)
  injection heq with heq1 heq2
  subst heq1
  subst heq2
  subst hv1
  subst hv3
  rcases colonCands_mem hl1 with h1 | h1 <;> rcases colonCands_mem hl3 with h3 | h3
  · refine ⟨[], a, b, [], c, d, ?_, Or.inl rfl, Or.inl rfl, ha, hb, hc, hd, rfl⟩
    have h3s : l3 = pr := by simpa using h3
    rw [← h1, he1]
    simp [← h3s, he3]
  · refine ⟨[], a, b, [':'], c, d, ?_, Or.inl rfl, Or.inr rfl, ha, hb, hc, hd, rfl⟩
    have h3s : pr = ':' :: l3 := by simpa using h3
    rw [← h1, he1]
    simp [h3s, he3]
  · refine ⟨[':'], a, b, [], c, d, ?_, Or.inr rfl, Or.inl rfl, ha, hb, hc, hd, rfl⟩
    have h3s : l3 = pr := by simpa using h3
    rw [h1, he1]
    simp [← h3s, he3]
  · refine ⟨[':'], a, b, [':'], c, d, ?_, Or.inr rfl, Or.inr rfl, ha, hb, hc, hd, rfl⟩
    have h3s : pr = ':' :: l3 := by simpa using h3
    rw [h1, he1]
    simp [h3s, he3]

theorem tsTail_complete (h : Nat) {a b c d : Char} (c1 c2 r : List Char)
    (hc1 : c1 = [] ∨ c1 = [':']) (hc2 : c2 = [] ∨ c2 = [':'])
    (ha : isMS1 a = true) (hb : isDigitC b = true)
    (hc : isMS1 c = true) (hd : isDigitC d = true) :
    ((h, dv a b, dv c d), r) ∈ tsTail h (c1 ++ a :: b :: (c2 ++ c :: d :: r)) := by
  simp only [tsTail, List.mem_flatMap, List.mem_map]
  refine ⟨a :: b :: (c2 ++ c :: d :: r), ?_,
    (dv a b, c2 ++ c :: d :: r), msCands_mem.mpr (takeMS_complete _ ha hb),
    c :: d :: r, ?_,
    (dv c d, r), msCands_mem.mpr (takeMS_complete _ hc hd), rfl⟩
  · rcases hc1 with rfl | rfl
    · simpa using colonCands_self _
    · simpa using colonCands_cons _
  · rcases hc2 with rfl | rfl
    · simpa using colonCands_self _
    · simpa using colonCands_cons _

theorem tsCands_sound {l : List Char} {v : Nat × Nat × Nat} {r : List Char}
    (h : (v, r) ∈ tsCands l) : ∃ t, l = t ++ r ∧ tsShape t = some v := by
  rw [tsCands] at h
  rcases List.mem_append.mp h with hA | hB
  · cases htk : takeHH l with
    | none => rw [htk] at hA; simp at hA
    | some p =>
      rw [htk] at hA
      obtain ⟨pv, pr⟩ := p
      obtain ⟨e, f, hle, hde, hdf, hpv⟩ := takeHH_sound htk
      obtain ⟨c1, a, b, c2, c, d, hpr, hc1, hc2, ha, hb, hc, hd, hv⟩ := tsTail_sound hA
      subst hpv
      subst hv
      simp only at hpr
      rcases hc1 with rfl | rfl <;> rcases hc2 with rfl | rfl
      · refine ⟨[e, f, a, b, c, d], by simp at hpr; simp [hle, hpr], ?_⟩
        rw [tsShape,
          if_neg (fun hcon => isDigitC_ne_colon hde hcon.1),
          if_pos ⟨hde, hdf, ha, hb, hc, hd⟩]
      · refine ⟨[e, f, a, b, ':', c, d], by simp at hpr; simp [hle, hpr], ?_⟩
        rw [tsShape,
          if_neg (fun hcon => isDigitC_ne_colon (isMS1_isDigitC ha) hcon.2.2.1),
          if_pos ⟨hde, hdf, ha, hb, rfl, hc, hd⟩]
      · refine ⟨[e, f, ':', a, b, c, d], by simp at hpr; simp [hle, hpr], ?_⟩
        rw [tsShape, if_pos ⟨hde, hdf, rfl, ha, hb, hc, hd⟩]
      · refine ⟨[e, f, ':', a, b, ':', c, d], by simp at hpr; simp [hle, hpr], ?_⟩
        rw [tsShape, if_pos ⟨hde, hdf, rfl, ha, hb, rfl, hc, hd⟩]
  · obtain ⟨c1, a, b, c2, c, d, hpr, hc1, hc2, ha, hb, hc, hd, hv⟩ := tsTail_sound hB
    subst hv
    rcases hc1 with rfl | rfl <;> rcases hc2 with rfl | rfl
    · refine ⟨[a, b, c, d], by simp [hpr], ?_⟩
      rw [tsShape, if_pos ⟨ha, hb, hc, hd⟩]
    · refine ⟨[a, b, ':', c, d], by simp [hpr], ?_⟩
      rw [tsShape,
        if_neg (fun hcon => isDigitC_ne_colon (isMS1_isDigitC ha) hcon.1),
        if_pos ⟨ha, hb, rfl, hc, hd⟩]
    · refine ⟨[':', a, b, c, d], by simp [hpr], ?_⟩
      rw [tsShape, if_pos ⟨rfl, ha, hb, hc, hd⟩]
    · refine ⟨[':', a, b, ':', c, d], by simp [hpr], ?_⟩
      rw [tsShape, if_pos ⟨rfl, ha, hb, rfl, hc, hd⟩]

theorem tsCands_complete {t : List Char} {v : Nat × Nat × Nat}
    (h : tsShape t = some v) (r : List Char) : (v, r) ∈ tsCands (t ++ r) := by
  match t with
  | [] => simp [tsShape] at h
  | [x1] => simp [tsShape] at h
  | [x1, x2] => simp [tsShape] at h
  | [x1, x2, x3] => simp [tsShape] at h
  | [a, b, c, d] =>
    rw [tsShape] at h
    split_ifs at h with h1
    · injection h with h
      subst h
      obtain ⟨ha, hb, hc, hd⟩ := h1
      apply List.mem_append_right
      simpa using tsTail_complete 0 [] [] r (Or.inl rfl) (Or.inl rfl) ha hb hc hd
  | [a, b, c, d, e] =>
    rw [tsShape] at h
    split_ifs at h with h1 h2
    · injection h with h
      subst h
      obtain ⟨hac, hb, hcd, hd, he⟩ := h1
      subst hac
      apply List.mem_append_right
      simpa using tsTail_complete 0 [':'] [] r (Or.inr rfl) (Or.inl rfl) hb hcd hd he
    · injection h with h
      subst h
      obtain ⟨ha, hb, hcc, hd, he⟩ := h2
      subst hcc
      apply List.mem_append_right
      simpa using tsTail_complete 0 [] [':'] r (Or.inl rfl) (Or.inr rfl) ha hb hd he
  | [a, b, c, d, e, f] =>
    rw [tsShape] at h
    split_ifs at h with h1 h2
    · injection h with h
      subst h
      obtain ⟨hac, hb, hcc, hdc, he, hf⟩ := h1
      subst hac
      subst hdc
      apply List.mem_append_right
      simpa using tsTail_complete 0 [':'] [':'] r (Or.inr rfl) (Or.inr rfl) hb hcc he hf
    · injection h with h
      subst h
      obtain ⟨ha, hb, hcc, hd, he, hf⟩ := h2
      apply List.mem_append_left
      have hk := takeHH_complete (c :: d :: e :: f :: r) ha hb
      simp only [List.cons_append, List.nil_append]
      rw [hk]
      simpa using tsTail_complete (dv a b) [] [] r (Or.inl rfl) (Or.inl rfl) hcc hd he hf
  | [a, b, c, d, e, f, g] =>
    rw [tsShape] at h
    split_ifs at h with h1 h2
    · injection h with h
      subst h
      obtain ⟨ha, hb, hcc, hd, he, hf, hg⟩ := h1
      subst hcc
      apply List.mem_append_left
      have hk := takeHH_complete (':' :: d :: e :: f :: g :: r) ha hb
      simp only [List.cons_append, List.nil_append]
      rw [hk]
      simpa using tsTail_complete (dv a b) [':'] [] r (Or.inr rfl) (Or.inl rfl) hd he hf hg
    · injection h with h
      subst h
      obtain ⟨ha, hb, hcc, hd, he, hf, hg⟩ := h2
      subst he
      apply List.mem_append_left
      have hk := takeHH_complete (c :: d :: ':' :: f :: g :: r) ha hb
      simp only [List.cons_append, List.nil_append]
      rw [hk]
      simpa using tsTail_complete (dv a b) [] [':'] r (Or.inl rfl) (Or.inr rfl) hcc hd hf hg
  | [a, b, c, d, e, f, g, k] =>
    rw [tsShape] at h
    split_ifs at h with h1
    · injection h with h
      subst h
      obtain ⟨ha, hb, hcc, hd, he, hff, hg, hk⟩ := h1
      subst hcc
      subst hff
      apply List.mem_append_left
      have hk2 := takeHH_complete (':' :: d :: e :: ':' :: g :: k :: r) ha hb
      simp only [List.cons_append, List.nil_append]
      rw [hk2]
      simpa using tsTail_complete (dv a b) [':'] [':'] r (Or.inr rfl) (Or.inr rfl) hd he hg hk
  | x1 :: x2 :: x3 :: x4 :: x5 :: x6 :: x7 :: x8 :: x9 :: rest =>
    simp [tsShape] at h

/-- Structure of a timestamp shape: no separator characters anywhere, a
non-whitespace non-separator head, and a digit as last character. -/
theorem tsShape_parts {t : List Char} {v : Nat × Nat × Nat} (h : tsShape t = some v) :
    (∀ x ∈ t, isSepC x = false) ∧
    (∃ hd tl, t = hd :: tl ∧ isSpaceC hd = false) ∧
    (∃ u dl, t = u ++ [dl] ∧ isDigitC dl = true) := by
  match t with
  | [] => simp [tsShape] at h
  | [x1] => simp [tsShape] at h
  | [x1, x2] => simp [tsShape] at h
  | [x1, x2, x3] => simp [tsShape] at h
  | [a, b, c, d] =>
    rw [tsShape] at h
    split_ifs at h with h1
    obtain ⟨ha, hb, hc, hd⟩ := h1
    refine ⟨?_, ⟨a, _, rfl, isDigitC_not_space (isMS1_isDigitC ha)⟩, ⟨[a, b, c], d, rfl, hd⟩⟩
    intro x hx
    simp at hx
    rcases hx with rfl | rfl | rfl | rfl
    · exact isDigitC_not_sep (isMS1_isDigitC ha)
    · exact isDigitC_not_sep hb
    · exact isDigitC_not_sep (isMS1_isDigitC hc)
    · exact isDigitC_not_sep hd
  | [a, b, c, d, e] =>
    rw [tsShape] at h
    split_ifs at h with h1 h2
    · obtain ⟨ha, hb, hc, hd, he⟩ := h1
      subst ha
      refine ⟨?_, ⟨':', _, rfl, by decide⟩, ⟨[':', b, c, d], e, rfl, he⟩⟩
      intro x hx
      simp at hx
      rcases hx with rfl | rfl | rfl | rfl | rfl
      · decide
      · exact isDigitC_not_sep (isMS1_isDigitC hb)
      · exact isDigitC_not_sep hc
      · exact isDigitC_not_sep (isMS1_isDigitC hd)
      · exact isDigitC_not_sep he
    · obtain ⟨ha, hb, hc, hd, he⟩ := h2
      subst hc
      refine ⟨?_, ⟨a, _, rfl, isDigitC_not_space (isMS1_isDigitC ha)⟩, ⟨[a, b, ':', d], e, rfl, he⟩⟩
      intro x hx
      simp at hx
      rcases hx with rfl | rfl | rfl | rfl | rfl
      · exact isDigitC_not_sep (isMS1_isDigitC ha)
      · exact isDigitC_not_sep hb
      · decide
      · exact isDigitC_not_sep (isMS1_isDigitC hd)
      · exact isDigitC_not_sep he
  | [a, b, c, d, e, f] =>
    rw [tsShape] at h
    split_ifs at h with h1 h2
    · obtain ⟨ha, hb, hc, hd, he, hf⟩ := h1
      subst ha
      subst hd
      refine ⟨?_, ⟨':', _, rfl, by decide⟩, ⟨[':', b, c, ':', e], f, rfl, hf⟩⟩
      intro x hx
      simp at hx
      rcases hx with rfl | rfl | rfl | rfl | rfl | rfl
      · decide
      · exact isDigitC_not_sep (isMS1_isDigitC hb)
      · exact isDigitC_not_sep hc
      · decide
      · exact isDigitC_not_sep (isMS1_isDigitC he)
      · exact isDigitC_not_sep hf
    · obtain ⟨ha, hb, hc, hd, he, hf⟩ := h2
      refine ⟨?_, ⟨a, _, rfl, isDigitC_not_space ha⟩, ⟨[a, b, c, d, e], f, rfl, hf⟩⟩
      intro x hx
      simp at hx
      rcases hx with rfl | rfl | rfl | rfl | rfl | rfl
      · exact isDigitC_not_sep ha
      · exact isDigitC_not_sep hb
      · exact isDigitC_not_sep (isMS1_isDigitC hc)
      · exact isDigitC_not_sep hd
      · exact isDigitC_not_sep (isMS1_isDigitC he)
      · exact isDigitC_not_sep hf
  | [a, b, c, d, e, f, g] =>
    rw [tsShape] at h
    split_ifs at h with h1 h2
    · obtain ⟨ha, hb, hc, hd, he, hf, hg⟩ := h1
      subst hc
      refine ⟨?_, ⟨a, _, rfl, isDigitC_not_space ha⟩, ⟨[a, b, ':', d, e, f], g, rfl, hg⟩⟩
      intro x hx
      simp at hx
      rcases hx with rfl | rfl | rfl | rfl | rfl | rfl | rfl
      · exact isDigitC_not_sep ha
      · exact isDigitC_not_sep hb
      · decide
      · exact isDigitC_not_sep (isMS1_isDigitC hd)
      · exact isDigitC_not_sep he
      · exact isDigitC_not_sep (isMS1_isDigitC hf)
      · exact isDigitC_not_sep hg
    · obtain ⟨ha, hb, hc, hd, he, hf, hg⟩ := h2
      subst he
      refine ⟨?_, ⟨a, _, rfl, isDigitC_not_space ha⟩, ⟨[a, b, c, d, ':', f], g, rfl, hg⟩⟩
      intro x hx
      simp at hx
      rcases hx with rfl | rfl | rfl | rfl | rfl | rfl | rfl
      · exact isDigitC_not_sep ha
      · exact isDigitC_not_sep hb
      · exact isDigitC_not_sep (isMS1_isDigitC hc)
      · exact isDigitC_not_sep hd
      · decide
      · exact isDigitC_not_sep (isMS1_isDigitC hf)
      · exact isDigitC_not_sep hg
  | [a, b, c, d, e, f, g, k] =>
    rw [tsShape] at h
    split_ifs at h with h1
    obtain ⟨ha, hb, hc, hd, he, hf, hg, hk⟩ := h1
    subst hc
    subst hf
    refine ⟨?_, ⟨a, _, rfl, isDigitC_not_space ha⟩, ⟨[a, b, ':', d, e, ':', g], k, rfl, hk⟩⟩
    intro x hx
    simp at hx
    rcases hx with rfl | rfl | rfl | rfl | rfl | rfl | rfl | rfl
    · exact isDigitC_not_sep ha
    · exact isDigitC_not_sep hb
    · decide
    · exact isDigitC_not_sep (isMS1_isDigitC hd)
    · exact isDigitC_not_sep he
    · decide
    · exact isDigitC_not_sep (isMS1_isDigitC hg)
    · exact isDigitC_not_sep hk
  | x1 :: x2 :: x3 :: x4 :: x5 :: x6 :: x7 :: x8 :: x9 :: rest =>
    simp [tsShape] at h

/-! ## `stripNL`, `rtrim`, `ltrim` -/

theorem stripNL_last {Y : List Char} {d : Char} (hd : ¬ d = '\n') :
    stripNL (Y ++ [d]) = Y ++ [d] := by
  unfold stripNL
  rw [show (Y ++ [d]).reverse = d :: Y.reverse by simp]
  show (if d = '\n' then Y.reverse.reverse else Y ++ [d]) = Y ++ [d]
  rw [if_neg hd]

theorem stripNL_append_nl (Y : List Char) : stripNL (Y ++ ['\n']) = Y := by
  unfold stripNL
  rw [show (Y ++ ['\n']).reverse = '\n' :: Y.reverse by simp]
  show (if '\n' = '\n' then Y.reverse.reverse else Y ++ ['\n']) = Y
  rw [if_pos rfl]
  simp

theorem stripNL_decomp (l : List Char) :
    ∃ nl, (nl = [] ∨ nl = ['\n']) ∧ l = stripNL l ++ nl := by
  cases hr : l.reverse with
  | nil =>
    refine ⟨[], Or.inl rfl, ?_⟩
    unfold stripNL
    rw [hr]
    simp
  | cons c r =>
    by_cases hc : c = '\n'
    · subst hc
      refine ⟨['\n'], Or.inr rfl, ?_⟩
      unfold stripNL
      rw [hr]
      show l = (if '\n' = '\n' then r.reverse else l) ++ ['\n']
      rw [if_pos rfl]
      have hl : l = r.reverse ++ ['\n'] := by
        have := congrArg List.reverse hr
        simpa using this
      rw [← hl]
    · refine ⟨[], Or.inl rfl, ?_⟩
      unfold stripNL
      rw [hr]
      show l = (if c = '\n' then r.reverse else l) ++ []
      rw [if_neg hc]
      simp

theorem rtrim_decomp (X : List Char) :
    ∃ w, X = rtrim X ++ w ∧ ∀ x ∈ w, isSpaceC x = true := by
  refine ⟨(X.reverse.takeWhile isSpaceC).reverse, ?_, ?_⟩
  · unfold rtrim
    conv_lhs => rw [← List.reverse_reverse X,
      ← List.takeWhile_append_dropWhile isSpaceC X.reverse]
    rw [List.reverse_append]
  · intro x hx
    rw [List.mem_reverse] at hx
    exact List.mem_takeWhile_imp hx

theorem rtrim_exact {t w : List Char} {d : Char} (ht : t = t.dropLast ++ [d])
    (hd : isSpaceC d = false) (hw : ∀ x ∈ w, isSpaceC x = true) :
    rtrim (t ++ w) = t := by
  unfold rtrim
  rw [List.reverse_append]
  rw [dropWhileP_all_append _ (fun x hx => hw x (List.mem_reverse.mp hx))]
  conv_lhs => rw [ht, List.reverse_append]
  simp only [List.reverse_cons, List.reverse_nil, List.nil_append, List.singleton_append]
  rw [List.dropWhile_cons, if_neg (by rw [hd]; simp)]
  rw [show d :: t.dropLast.reverse = (t.dropLast ++ [d]).reverse by simp]
  rw [List.reverse_reverse, ← ht]

/-! ## The four bridges between the matcher and the spec grammar -/

theorem atEnd_sound {l : List Char} (h : atEnd l = true) : l = [] ∨ l = ['\n'] := by
  match l with
  | [] => exact Or.inl rfl
  | [c] =>
    simp [atEnd] at h
    subst h
    exact Or.inr rfl
  | c :: d :: r => simp [atEnd] at h

theorem sepConsume_sound {r r2 : List Char} (h : sepConsume r = some r2) :
    ∃ w1 c w2, r = w1 ++ c :: (w2 ++ r2) ∧ isSepC c = true ∧
      (∀ x ∈ w1, isSpaceC x = true) ∧ (∀ x ∈ w2, isSpaceC x = true) := by
  unfold sepConsume at h
  cases hdw : dropWS r with
  | nil => rw [hdw] at h; cases h
  | cons c rest =>
    rw [hdw] at h
    have h2 : (if isSepC c = true then some (dropWS rest) else none) = some r2 := h
    by_cases hsep : isSepC c = true
    · rw [if_pos hsep] at h2
      injection h2 with h2
      obtain ⟨w1, hw1e, hw1⟩ := dropWS_decomp r
      obtain ⟨w2, hw2e, hw2⟩ := dropWS_decomp rest
      refine ⟨w1, c, w2, ?_, hsep, hw1, hw2⟩
      conv_lhs => rw [hw1e, hdw]
      rw [← h2]
      conv_lhs => rw [hw2e]
    · rw [if_neg hsep] at h2
      cases h2

theorem sepConsume_complete {w1 w2 Z : List Char} {c hd : Char} {tl : List Char}
    (hw1 : ∀ x ∈ w1, isSpaceC x = true) (hw2 : ∀ x ∈ w2, isSpaceC x = true)
    (hsep : isSepC c = true) (hz : Z = hd :: tl) (hhd : isSpaceC hd = false) :
    sepConsume (w1 ++ c :: (w2 ++ Z)) = some Z := by
  have h1 : dropWS (w1 ++ c :: (w2 ++ Z)) = c :: (w2 ++ Z) := by
    rw [dropWS_all_append _ hw1, dropWS_no_space _ (isSepC_not_space hsep)]
  unfold sepConsume
  rw [h1]
  show (if isSepC c = true then some (dropWS (w2 ++ Z)) else none) = some Z
  rw [if_pos hsep]
  rw [dropWS_all_append _ hw2, hz, dropWS_no_space _ hhd]

theorem segMatch_sound {l : List Char} {g : (Nat × Nat × Nat) × (Nat × Nat × Nat)}
    (h : segMatch l = some g) : Decomp l g := by
  unfold segMatch at h
  obtain ⟨c1, hc1mem, hc1⟩ := findSomeP_sound h
  obtain ⟨v1, r⟩ := c1
  have hc1a : (match sepConsume r with
      | none => none
      | some r2 => (tsCands r2).findSome?
          (fun c2 => if atEnd c2.2 = true then some (v1, c2.1) else none)) = some g := hc1
  cases hsep : sepConsume r with
  | none =>
    rw [hsep] at hc1a
    have hend : (none : Option ((Nat × Nat × Nat) × (Nat × Nat × Nat))) = some g := hc1a
    cases hend
  | some r2 =>
    rw [hsep] at hc1a
    have hc1b : (tsCands r2).findSome?
        (fun c2 => if atEnd c2.2 = true then some (v1, c2.1) else none) = some g := hc1a
    obtain ⟨c2, hc2mem, hc2⟩ := findSomeP_sound hc1b
    obtain ⟨v2, r3⟩ := c2
    have hc2a : (if atEnd r3 = true then some (v1, v2) else none) = some g := hc2
    by_cases hend : atEnd r3 = true
    · rw [if_pos hend] at hc2a
      injection hc2a with hc2a
      obtain ⟨t1, hl1, hs1⟩ := tsCands_sound hc1mem
      obtain ⟨t2, hl2, hs2⟩ := tsCands_sound hc2mem
      obtain ⟨w1, c, w2, hre, hcsep, hw1, hw2⟩ := sepConsume_sound hsep
      refine ⟨t1, w1, c, w2, t2, r3, ?_, ?_, ?_, hw1, hw2, hcsep, atEnd_sound hend⟩
      · rw [hl1, hre, hl2]
        simp
      · rw [hs1, ← hc2a]
      · rw [hs2, ← hc2a]
    · rw [if_neg hend] at hc2a
      cases hc2a

theorem segMatch_of_decomp {l : List Char} {g : (Nat × Nat × Nat) × (Nat × Nat × Nat)}
    (h : Decomp l g) : ∃ g2, segMatch l = some g2 := by
  obtain ⟨t1, w1, c, w2, t2, nl, hl, h1, h2, hw1, hw2, hsep, hnl⟩ := h
  obtain ⟨-, ⟨hd2, tl2, ht2h, hh2s⟩, -⟩ := tsShape_parts h2
  have hcand1 : (g.1, w1 ++ c :: (w2 ++ (t2 ++ nl))) ∈ tsCands l := by
    rw [hl, List.append_assoc]
    exact tsCands_complete h1 _
  have hcand2 : (g.2, nl) ∈ tsCands (t2 ++ nl) := tsCands_complete h2 nl
  have hend : atEnd nl = true := by
    rcases hnl with rfl | rfl <;> decide
  have hz2 : t2 ++ nl = hd2 :: (tl2 ++ nl) := by
    rw [ht2h]
    simp
  have hsc : sepConsume (w1 ++ c :: (w2 ++ (t2 ++ nl))) = some (t2 ++ nl) :=
    sepConsume_complete hw1 hw2 hsep hz2 hh2s
  have hin : (fun c2 : (Nat × Nat × Nat) × List Char =>
      if atEnd c2.2 = true then some (g.1, c2.1) else none) (g.2, nl) = some (g.1, g.2) := by
    show (if atEnd nl = true then some (g.1, g.2) else none) = some (g.1, g.2)
    rw [if_pos hend]
  obtain ⟨y, hy⟩ := @findSomeP_isSome ((Nat × Nat × Nat) × List Char)
    ((Nat × Nat × Nat) × (Nat × Nat × Nat)) (tsCands (t2 ++ nl))
    (fun c2 => if atEnd c2.2 = true then some (g.1, c2.1) else none)
    (g.2, nl) (g.1, g.2) hcand2 hin
  have hstep : (fun c1 : (Nat × Nat × Nat) × List Char =>
      match sepConsume c1.2 with
      | none => none
      | some r2 => (tsCands r2).findSome?
          (fun c2 => if atEnd c2.2 = true then some (c1.1, c2.1) else none))
      (g.1, w1 ++ c :: (w2 ++ (t2 ++ nl))) = some y := by
    show (match sepConsume (w1 ++ c :: (w2 ++ (t2 ++ nl))) with
        | none => none
        | some r2 => (tsCands r2).findSome?
            (fun c2 => if atEnd c2.2 = true then some (g.1, c2.1) else none)) = some y
    rw [hsc]
    exact hy
  unfold segMatch
  exact @findSomeP_isSome ((Nat × Nat × Nat) × List Char)
    ((Nat × Nat × Nat) × (Nat × Nat × Nat)) (tsCands l)
    (fun c1 =>
      match sepConsume c1.2 with
      | none => none
      | some r2 => (tsCands r2).findSome?
          (fun c2 => if atEnd c2.2 = true then some (c1.1, c2.1) else none))
    (g.1, w1 ++ c :: (w2 ++ (t2 ++ nl))) y hcand1 hstep

theorem spec_of_decomp {l : List Char} {g : (Nat × Nat × Nat) × (Nat × Nat × Nat)}
    (hd : Decomp l g) : segSpecParse l = some g := by
  obtain ⟨t1, w1, c, w2, t2, nl, hl, h1, h2, hw1, hw2, hsep, hnl⟩ := hd
  obtain ⟨hns1, ⟨hd1, tl1, ht1h, hh1s⟩, ⟨u1, dl1, ht1c, hd1c⟩⟩ := tsShape_parts h1
  obtain ⟨hns2, ⟨hd2, tl2, ht2h, hh2s⟩, ⟨u2, dl2, ht2c, hd2c⟩⟩ := tsShape_parts h2
  have hstrip : stripNL l = t1 ++ w1 ++ c :: (w2 ++ t2) := by
    rcases hnl with rfl | rfl
    · have hleq : l = (t1 ++ w1 ++ c :: (w2 ++ u2)) ++ [dl2] := by
        rw [hl, ht2c]
        simp
      rw [hleq, stripNL_last (isDigitC_ne_nl hd2c), ← hleq, hl]
      simp [ht2c]
    · have hleq : l = (t1 ++ w1 ++ c :: (w2 ++ t2)) ++ ['\n'] := by
        rw [hl]
        simp
      rw [hleq, stripNL_append_nl]
  have hpt1 : ∀ x ∈ t1 ++ w1, (!(isSepC x)) = true := by
    intro x hx
    rcases List.mem_append.mp hx with hx1 | hx1
    · rw [hns1 x hx1]; rfl
    · rw [isSpaceC_not_sep (hw1 x hx1)]; rfl
  have hdrop : (stripNL l).dropWhile (fun x => !(isSepC x)) = c :: (w2 ++ t2) := by
    rw [hstrip, show t1 ++ w1 ++ c :: (w2 ++ t2) = (t1 ++ w1) ++ c :: (w2 ++ t2) by simp,
      dropWhileP_all_append _ hpt1, List.dropWhile_cons, if_neg (by rw [hsep]; simp)]
  have htake : (stripNL l).takeWhile (fun x => !(isSepC x)) = t1 ++ w1 := by
    rw [hstrip, show t1 ++ w1 ++ c :: (w2 ++ t2) = (t1 ++ w1) ++ c :: (w2 ++ t2) by simp,
      takeWhileP_all_append _ hpt1, List.takeWhile_cons, if_neg (by rw [hsep]; simp)]
    simp
  have hrt : rtrim (t1 ++ w1) = t1 := by
    refine rtrim_exact ?_ (isDigitC_not_space hd1c) hw1
    rw [ht1c]
    simp
  have hlt : ltrim (w2 ++ t2) = t2 := by
    unfold ltrim
    rw [dropWhileP_all_append _ hw2, ht2h, List.dropWhile_cons, if_neg (by rw [hh2s]; simp)]
  have hany : (w2 ++ t2).any isSepC = false := by
    rw [Bool.eq_false_iff]
    intro hcon
    rw [List.any_eq_true] at hcon
    obtain ⟨x, hx, hpx⟩ := hcon
    rcases List.mem_append.mp hx with hx1 | hx1
    · rw [isSpaceC_not_sep (hw2 x hx1)] at hpx; cases hpx
    · rw [hns2 x hx1] at hpx; cases hpx
  unfold segSpecParse
  rw [hdrop]
  show (if (w2 ++ t2).any isSepC = true then none
        else match tsShape (rtrim ((stripNL l).takeWhile (fun x => !(isSepC x)))),
            tsShape (ltrim (w2 ++ t2)) with
          | some v1, some v2 => some (v1, v2)
          | _, _ => none) = some g
  rw [if_neg (by rw [hany]; simp), htake, hrt, hlt, h1, h2]

theorem decomp_of_spec {l : List Char} {g : (Nat × Nat × Nat) × (Nat × Nat × Nat)}
    (h : segSpecParse l = some g) : Decomp l g := by
  obtain ⟨nl, hnl, hstrip⟩ := stripNL_decomp l
  unfold segSpecParse at h
  cases hdw : (stripNL l).dropWhile (fun x => !(isSepC x)) with
  | nil => rw [hdw] at h; cases h
  | cons c right =>
    rw [hdw] at h
    have ha : (if right.any isSepC = true then none
        else match tsShape (rtrim ((stripNL l).takeWhile (fun x => !(isSepC x)))),
            tsShape (ltrim right) with
          | some v1, some v2 => some (v1, v2)
          | _, _ => none) = some g := h
    by_cases hany : right.any isSepC = true
    · rw [if_pos hany] at ha; cases ha
    · rw [if_neg hany] at ha
      cases hs1 : tsShape (rtrim ((stripNL l).takeWhile (fun x => !(isSepC x)))) with
      | none =>
        rw [hs1] at ha
        have hb : (none : Option ((Nat × Nat × Nat) × (Nat × Nat × Nat))) = some g := ha
        cases hb
      | some v1 =>
        cases hs2 : tsShape (ltrim right) with
        | none =>
          rw [hs1, hs2] at ha
          have hb : (none : Option ((Nat × Nat × Nat) × (Nat × Nat × Nat))) = some g := ha
          cases hb
        | some v2 =>
          rw [hs1, hs2] at ha
          have hb : some (v1, v2) = some g := ha
          injection hb with hb
          obtain ⟨w1, hw1e, hw1⟩ := rtrim_decomp ((stripNL l).takeWhile (fun x => !(isSepC x)))
          have hcsep : isSepC c = true := by
            have := dropWhileP_head_false hdw
            simpa using this
          refine ⟨rtrim ((stripNL l).takeWhile (fun x => !(isSepC x))), w1, c,
            right.takeWhile isSpaceC, ltrim right, nl, ?_, ?_, ?_, hw1, ?_, hcsep, hnl⟩
          · conv_lhs => rw [hstrip]
            conv_lhs => rw [← List.takeWhile_append_dropWhile (fun x => !(isSepC x)) (stripNL l)]
            rw [hdw]
            conv_lhs => rw [hw1e]
            unfold ltrim
            conv_lhs => rw [← List.takeWhile_append_dropWhile isSpaceC right]
            simp
            rw [← List.append_assoc, List.takeWhile_append_dropWhile]
          · rw [hs1, ← hb]
          · rw [hs2, ← hb]
          · intro x hx
            exact List.mem_takeWhile_imp hx

/-- The backtracking matcher agrees with the spec-side parse everywhere. -/
theorem segMatch_eq_segSpecParse (l : List Char) : segMatch l = segSpecParse l := by
  cases h : segMatch l with
  | some g => exact (spec_of_decomp (segMatch_sound h)).symm
  | none =>
    cases h2 : segSpecParse l with
    | none => rfl
    | some g =>
      obtain ⟨g2, hg2⟩ := segMatch_of_decomp (decomp_of_spec h2)
      rw [h] at hg2
      cases hg2

/-! ## Rendering facts (for the round-trip claim) -/

theorem digitChar_isDigit {d : Nat} (h : d ≤ 9) : isDigitC (Nat.digitChar d) = true := by
  interval_cases d <;> decide

theorem digitChar_isMS1 {d : Nat} (h : d ≤ 5) : isMS1 (Nat.digitChar d) = true := by
  interval_cases d <;> decide

theorem digitChar_val {d : Nat} (h : d ≤ 9) : digitVal (Nat.digitChar d) = d := by
  interval_cases d <;> decide

theorem dv_pad2 {k : Nat} (h : k ≤ 99) :
    dv (Nat.digitChar (k / 10)) (Nat.digitChar (k % 10)) = k := by
  unfold dv
  rw [digitChar_val (by omega), digitChar_val (by omega)]
  omega

theorem tsShape_renderTS {n : Nat} (h : n < 360000) :
    tsShape (renderTS n) = some (n / 3600, n % 3600 / 60, n % 60) := by
  have hh : n / 3600 ≤ 99 := by omega
  have hm : n % 3600 / 60 ≤ 59 := by omega
  have hs : n % 60 ≤ 59 := by omega
  show tsShape [Nat.digitChar (n / 3600 / 10), Nat.digitChar (n / 3600 % 10), ':',
    Nat.digitChar (n % 3600 / 60 / 10), Nat.digitChar (n % 3600 / 60 % 10), ':',
    Nat.digitChar (n % 60 / 10), Nat.digitChar (n % 60 % 10)] = _
  rw [tsShape, if_pos ⟨digitChar_isDigit (by omega), digitChar_isDigit (by omega), rfl,
    digitChar_isMS1 (by omega), digitChar_isDigit (by omega), rfl,
    digitChar_isMS1 (by omega), digitChar_isDigit (by omega)⟩]
  rw [dv_pad2 hh, dv_pad2 (by omega), dv_pad2 (by omega)]

theorem tsVal_parts (n : Nat) : tsVal (n / 3600, n % 3600 / 60, n % 60) = n := by
  unfold tsVal timestamp_seconds
  simp only
  split_ifs <;> omega

theorem segMatch_renderSegment {a b : Nat} (ha : a < 360000) (hb : b < 360000) :
    segMatch (renderTS a ++ '-' :: renderTS b) =
      some ((a / 3600, a % 3600 / 60, a % 60), (b / 3600, b % 3600 / 60, b % 60)) := by
  rw [segMatch_eq_segSpecParse]
  exact spec_of_decomp ⟨renderTS a, [], '-', [], renderTS b, [],
    by simp, tsShape_renderTS ha, tsShape_renderTS hb,
    by simp, by simp, by decide, Or.inl rfl⟩

/-! ## `';'.join` / `.split(';')` facts -/

theorem splitSemiL_no_semi {x : List Char} (hx : ';' ∉ x) : splitSemiL x = [x] := by
  induction x with
  | nil => rfl
  | cons c r ih =>
    have hc : ¬ c = ';' := fun h => hx (h ▸ List.mem_cons_self c r)
    rw [splitSemiL, ih (fun h => hx (List.mem_cons_of_mem c h))]
    show (if c = ';' then [[], r] else [c :: r]) = [c :: r]
    rw [if_neg hc]

theorem splitSemiL_ne_nil (l : List Char) : ∃ h t, splitSemiL l = h :: t := by
  induction l with
  | nil => exact ⟨[], [], rfl⟩
  | cons c r ih =>
    obtain ⟨h, t, iht⟩ := ih
    by_cases hc : c = ';'
    · refine ⟨[], h :: t, ?_⟩
      rw [splitSemiL, iht]
      show (if c = ';' then [] :: h :: t else (c :: h) :: t) = [] :: h :: t
      rw [if_pos hc]
    · refine ⟨c :: h, t, ?_⟩
      rw [splitSemiL, iht]
      show (if c = ';' then [] :: h :: t else (c :: h) :: t) = (c :: h) :: t
      rw [if_neg hc]

theorem splitSemiL_append {x : List Char} (t : List Char) (hx : ';' ∉ x) :
    splitSemiL (x ++ ';' :: t) = x :: splitSemiL t := by
  induction x with
  | nil =>
    obtain ⟨h, t2, ht2⟩ := splitSemiL_ne_nil t
    rw [List.nil_append, splitSemiL, ht2]
    show (if ';' = ';' then [] :: h :: t2 else _) = [] :: h :: t2
    rw [if_pos rfl]
  | cons c r ih =>
    have hc : ¬ c = ';' := fun h => hx (h ▸ List.mem_cons_self c r)
    rw [List.cons_append, splitSemiL, ih (fun h => hx (List.mem_cons_of_mem c h))]
    show (if c = ';' then [] :: r :: splitSemiL t else (c :: r) :: splitSemiL t) =
      (c :: r) :: splitSemiL t
    rw [if_neg hc]

theorem splitSemiL_joinSemiL {L : List (List Char)} (hL : L ≠ [])
    (h : ∀ x ∈ L, ';' ∉ x) : splitSemiL (joinSemiL L) = L := by
  induction L with
  | nil => cases hL rfl
  | cons x xs ih =>
    cases xs with
    | nil => exact splitSemiL_no_semi (h x (List.mem_cons_self x []))
    | cons y ys =>
      show splitSemiL (x ++ ';' :: joinSemiL (y :: ys)) = x :: y :: ys
      rw [splitSemiL_append _ (h x (List.mem_cons_self x (y :: ys)))]
      rw [ih (by simp) (fun z hz => h z (List.mem_cons_of_mem x hz))]

theorem mk_toList (s : String) : String.mk s.toList = s := rfl

theorem splitSemi_joinSemi {l : List String} (hl : l ≠ [])
    (h : ∀ s ∈ l, ';' ∉ s.toList) : splitSemi (joinSemi l) = l := by
  unfold splitSemi joinSemi
  rw [show (String.mk (joinSemiL (l.map String.toList))).toList
    = joinSemiL (l.map String.toList) from rfl]
  rw [splitSemiL_joinSemiL (by simpa using hl) ?hns]
  case hns =>
    intro x hx
    rw [List.mem_map] at hx
    obtain ⟨s, hs, rfl⟩ := hx
    exact h s hs
  rw [List.map_map]
  have : (String.mk ∘ String.toList) = id := by
    funext s
    exact mk_toList s
  rw [this, List.map_id]

theorem noSemiItems_spec {l : List String} (h : noSemiItems l = true) :
    ∀ s ∈ l, ';' ∉ s.toList := by
  intro s hs hc
  unfold noSemiItems at h
  rw [List.all_eq_true] at h
  have h1 := h s hs
  rw [List.all_eq_true] at h1
  have h2 := h1 ';' hc
  simp at h2

theorem splitSemi_join_cell {l : List String} (h : noSemiItems l = true) :
    splitSemi (joinSemi l) = fixEmpty l := by
  cases l with
  | nil => decide
  | cons x xs =>
    show splitSemi (joinSemi (x :: xs)) = x :: xs
    exact splitSemi_joinSemi (by simp) (noSemiItems_spec h)

/-! ## CSV write/read facts -/

theorem complete_truthy {m : Metadata} (h : m.complete = true) : m.truthy = true := by
  unfold Metadata.complete at h
  unfold Metadata.truthy
  simp at h ⊢
  exact Or.inl (Or.inl (Or.inl (Or.inl h.1.1.1.1)))

theorem cell_join (sp : List String) :
    (if sp.isEmpty then "" else joinSemi sp) = joinSemi sp := by
  cases sp with
  | nil => decide
  | cons x xs => rfl

theorem buildRow_complete {m : Metadata} (h : m.complete = true) :
    buildRow m = some (mkRow m) := by
  unfold Metadata.complete at h
  simp at h
  obtain ⟨⟨⟨⟨h1, h2⟩, h3⟩, h4⟩, h5⟩ := h
  obtain ⟨fp, hfp⟩ := Option.isSome_iff_exists.mp h1
  obtain ⟨en, hen⟩ := Option.isSome_iff_exists.mp h2
  obtain ⟨ti, hti⟩ := Option.isSome_iff_exists.mp h3
  obtain ⟨sp, hsp⟩ := Option.isSome_iff_exists.mp h4
  obtain ⟨sg, hsg⟩ := Option.isSome_iff_exists.mp h5
  unfold buildRow mkRow
  rw [hfp, hen, hti, hsp, hsg]
  show some [fp, en, ti, if sp.isEmpty then "" else joinSemi sp,
    if sg.isEmpty then "" else joinSemi sg] = _
  rw [cell_join, cell_join]
  simp

theorem write_complete {ms : List Metadata} (h : ∀ m ∈ ms, m.complete = true) :
    write_to_csv ms = some (KEYS :: ms.map mkRow) := by
  have hfilter : ms.filter (fun m => m.truthy) = ms := by
    induction ms with
    | nil => rfl
    | cons m rest ih =>
      rw [List.filter_cons, if_pos (complete_truthy (h m (List.mem_cons_self m rest)))]
      rw [ih (fun x hx => h x (List.mem_cons_of_mem m hx))]
  unfold write_to_csv
  rw [hfilter, mapO_of_all (fun m hm => buildRow_complete (h m hm))]

theorem readRow_KEYS (fp en ti s4 s5 : String) :
    readRow KEYS [fp, en, ti, s4, s5] =
      .ok ⟨some fp, some en, some ti, some (splitSemi s4), some (splitSemi s5)⟩ := rfl

theorem read_rows_complete {ms : List Metadata}
    (h : ∀ m ∈ ms, m.complete = true)
    (hs : ∀ m ∈ ms, noSemiItems (m.speakers.getD []) = true ∧
      noSemiItems (m.segments.getD []) = true) :
    ∀ acc, read_from_csv (.ok (KEYS :: ms.map mkRow)) acc = .ok (acc ++ ms.map fixRec) := by
  induction ms with
  | nil =>
    intro acc
    show Except.ok acc = Except.ok (acc ++ [])
    rw [List.append_nil]
  | cons m rest ih =>
    intro acc
    have hc := h m (List.mem_cons_self m rest)
    have hns := hs m (List.mem_cons_self m rest)
    have hrec : (⟨some (m.filepath.getD ""), some (m.event_name.getD ""),
        some (m.title.getD ""), some (splitSemi (joinSemi (m.speakers.getD []))),
        some (splitSemi (joinSemi (m.segments.getD [])))⟩ : Metadata) = fixRec m := by
      unfold fixRec
      rw [splitSemi_join_cell hns.1, splitSemi_join_cell hns.2]
      unfold Metadata.complete at hc
      simp at hc
      obtain ⟨⟨⟨⟨h1, h2⟩, h3⟩, h4⟩, h5⟩ := hc
      obtain ⟨fp, hfp⟩ := Option.isSome_iff_exists.mp h1
      obtain ⟨en, hen⟩ := Option.isSome_iff_exists.mp h2
      obtain ⟨ti, hti⟩ := Option.isSome_iff_exists.mp h3
      rw [hfp, hen, hti]
      simp
    have hstep : read_from_csv (.ok (KEYS :: (m :: rest).map mkRow)) acc =
        read_from_csv (.ok (KEYS :: rest.map mkRow)) (acc ++ [fixRec m]) := by
      show List.foldlM (fun acc cells =>
          if cells.isEmpty then pure acc
          else (readRow KEYS cells).map (fun m2 => (add_item acc m2).1))
        acc (mkRow m :: rest.map mkRow) =
        List.foldlM (fun acc cells =>
          if cells.isEmpty then pure acc
          else (readRow KEYS cells).map (fun m2 => (add_item acc m2).1))
        (acc ++ [fixRec m]) (rest.map mkRow)
      rw [List.foldlM_cons]
      rw [if_neg (by unfold mkRow; simp)]
      rw [show mkRow m = [m.filepath.getD "", m.event_name.getD "", m.title.getD "",
        joinSemi (m.speakers.getD []), joinSemi (m.segments.getD [])] from rfl]
      rw [readRow_KEYS, hrec]
      rfl
    rw [hstep, ih (fun x hx => h x (List.mem_cons_of_mem m hx))
      (fun x hx => hs x (List.mem_cons_of_mem m hx))]
    simp

theorem readRow_no_speakers {fns : List String} (cells : List String)
    (h : ¬ "speakers" ∈ fns) : readRow fns cells = .error .keyError := by
  have hz : ∀ cs, (zipRow fns cs).filter (fun p => p.1 = "speakers") = [] := by
    clear cells
    induction fns with
    | nil => intro cs; cases cs <;> rfl
    | cons n ns ih =>
      have hn : ¬ (n = "speakers") := fun he => h (he ▸ List.mem_cons_self n ns)
      have hns : ¬ "speakers" ∈ ns := fun he => h (List.mem_cons_of_mem n he)
      intro cs
      cases cs with
      | nil =>
        rw [zipRow, List.filter_cons, if_neg (by simpa using hn)]
        exact ih hns []
      | cons v vs =>
        rw [zipRow, List.filter_cons, if_neg (by simpa using hn)]
        exact ih hns vs
  have hget : dictGet (zipRow fns cells) "speakers" = none := by
    unfold dictGet
    rw [hz cells]
    rfl
  unfold readRow
  rw [hget]

theorem foldRows_no_speakers {header : List String} (hns : ¬ "speakers" ∈ header) :
    ∀ (rows : List (List String)) (ms : List Metadata), (∃ r ∈ rows, r ≠ []) →
      List.foldlM (fun acc cells =>
        if cells.isEmpty then pure acc
        else (readRow header cells).map (fun m => (add_item acc m).1)) ms rows =
      .error .keyError := by
  intro rows
  induction rows with
  | nil =>
    intro ms hex
    obtain ⟨r, hr, _⟩ := hex
    cases hr
  | cons row rest ih =>
    intro ms hex
    rw [List.foldlM_cons]
    by_cases hempty : row.isEmpty = true
    · rw [if_pos hempty]
      have hex2 : ∃ r ∈ rest, r ≠ [] := by
        obtain ⟨r, hr, hrne⟩ := hex
        rcases List.mem_cons.mp hr with rfl | hr2
        · exact absurd (List.isEmpty_iff.mp hempty) hrne
        · exact ⟨r, hr2, hrne⟩
      show List.foldlM _ ms rest = _
      exact ih ms hex2
    · rw [if_neg hempty, readRow_no_speakers row hns]
      rfl

/-! ## The claims -/

/-- C1 (amended): serialize-then-deserialize over a collection of complete
records whose speaker/segment items contain no `';'` reproduces every
record, except that an empty `speakers`/`segments` sequence (an empty
cell) comes back as the one-element sequence `[""]` (`fixRec`). -/
theorem round_trip_fixEmpty (ms : List Metadata)
    (h : ∀ m ∈ ms, m.complete = true)
    (hs : ∀ m ∈ ms, noSemiItems (m.speakers.getD []) = true ∧
      noSemiItems (m.segments.getD []) = true) :
    write_to_csv ms = some (KEYS :: ms.map mkRow) ∧
    read_from_csv (.ok (KEYS :: ms.map mkRow)) [] = .ok (ms.map fixRec) := by
  refine ⟨write_complete h, ?_⟩
  have hr := read_rows_complete h hs []
  simpa using hr

/-- C1 witness: a collection with an empty `speakers` sequence and an empty
`segments` sequence round-trips to the `fixRec` image (the empty sequences
come back as `[""]`). -/
theorem round_trip_fixEmpty_witness :
    write_to_csv c1List = some (KEYS :: c1List.map mkRow) ∧
    read_from_csv (.ok (KEYS :: c1List.map mkRow)) [] = .ok (c1List.map fixRec) :=
  round_trip_fixEmpty c1List (by decide) (by decide)

/-- C1 counterexample: the claim promises that every record with non-empty
`speakers` is reproduced exactly, but a speaker name containing `';'` is
split apart on read: `["A;B"]` comes back as `["A", "B"]`. -/
theorem round_trip_semicolon_cex :
    write_to_csv [c1Cex] = some [KEYS, ["a.mp3", "E", "T", "A;B", ""]] ∧
    read_from_csv (.ok [KEYS, ["a.mp3", "E", "T", "A;B", ""]]) [] =
      .ok [⟨some "a.mp3", some "E", some "T", some ["A", "B"], some [""]⟩] ∧
    (⟨some "a.mp3", some "E", some "T", some ["A", "B"], some [""]⟩ : Metadata) ≠
      ⟨some "a.mp3", some "E", some "T", some ["A;B"], some [""]⟩ :=
  ⟨by decide, by decide, by decide⟩

/-- C2 counterexample: the claim reads the grammar with ASCII digits ("MM
and SS two digits in [00,59]"), but the program compiles its pattern from
a `str`, so `\d` matches any Unicode decimal digit: on `"00:10-00:2٠"`
(final character the Arabic-Indic digit zero, U+0660) the ASCII grammar
does not match, yet `segment_seconds` succeeds with `(10, 20)` instead of
raising a format error. -/
theorem segment_seconds_unicode_cex :
    segment_seconds "00:10-00:2٠" = .ok (10, 20) ∧
    segSpecParseAscii "00:10-00:2٠".toList = none :=
  ⟨by decide, by decide⟩

/-- C2 (amended): with the grammar read as the spec's regex under Python's
Unicode `re` semantics (`\d` any Unicode decimal digit valued by `int()`,
`\s` any Unicode whitespace, `[0-5]` the literal ASCII class; this is
`segSpecParse`), `segment_seconds` fails with a format error exactly when
the input does not match, fails with a range error exactly when it matches
but the end seconds are strictly below the start seconds, and otherwise
returns the (start, end) pair; the two spec examples behave as stated. -/
theorem segment_seconds_classification :
    (∀ s : String,
      (segment_seconds s = .error .formatError ↔ segSpecParse s.toList = none) ∧
      (segment_seconds s = .error .rangeError ↔
        ∃ v1 v2, segSpecParse s.toList = some (v1, v2) ∧ tsVal v2 < tsVal v1) ∧
      (∀ v1 v2, segSpecParse s.toList = some (v1, v2) → tsVal v1 ≤ tsVal v2 →
        segment_seconds s = .ok (tsVal v1, tsVal v2))) ∧
    segment_seconds "5:00-10:00" = .error .formatError ∧
    segment_seconds "05:00-00:10" = .error .rangeError := by
  refine ⟨?_, by decide, by decide⟩
  intro s
  have he : segment_seconds s = (match segSpecParse s.toList with
      | none => .error .formatError
      | some g => if tsVal g.2 < tsVal g.1 then .error .rangeError
                  else .ok (tsVal g.1, tsVal g.2)) := by
    unfold segment_seconds
    rw [segMatch_eq_segSpecParse]
  cases hp : segSpecParse s.toList with
  | none =>
    rw [hp] at he
    have he2 : segment_seconds s = .error .formatError := he
    refine ⟨⟨fun _ => rfl, fun _ => he2⟩, ⟨?_, ?_⟩, ?_⟩
    · intro hcon
      rw [he2] at hcon
      cases hcon
    · rintro ⟨v1, v2, hc, -⟩
      cases hc
    · intro v1 v2 hc
      cases hc
  | some g =>
    obtain ⟨v1, v2⟩ := g
    rw [hp] at he
    have he2 : segment_seconds s =
        (if tsVal v2 < tsVal v1 then .error .rangeError
         else .ok (tsVal v1, tsVal v2)) := he
    by_cases hlt : tsVal v2 < tsVal v1
    · rw [if_pos hlt] at he2
      refine ⟨⟨?_, ?_⟩, ⟨fun _ => ⟨v1, v2, rfl, hlt⟩, fun _ => he2⟩, ?_⟩
      · intro hcon
        rw [he2] at hcon
        simp at hcon
      · intro hc
        cases hc
      · intro w1 w2 hc hle
        injection hc with hc
        injection hc with hc1 hc2
        subst hc1
        subst hc2
        omega
    · rw [if_neg hlt] at he2
      refine ⟨⟨?_, ?_⟩, ⟨?_, ?_⟩, ?_⟩
      · intro hcon
        rw [he2] at hcon
        simp at hcon
      · intro hc
        cases hc
      · intro hcon
        rw [he2] at hcon
        simp at hcon
      · rintro ⟨w1, w2, hc, hlt2⟩
        injection hc with hc
        injection hc with hc1 hc2
        subst hc1
        subst hc2
        omega
      · intro w1 w2 hc hle
        injection hc with hc
        injection hc with hc1 hc2
        subst hc1
        subst hc2
        exact he2

/-- C2 witness: a well-formed segment parses to its second offsets. -/
theorem segment_seconds_classification_witness :
    segment_seconds "00:10-00:20" = .ok (tsVal (0, 0, 10), tsVal (0, 0, 20)) :=
  (segment_seconds_classification.1 "00:10-00:20").2.2 (0, 0, 10) (0, 0, 20)
    (by decide) (by decide)

/-- C3 counterexample: the claim promises one data row per record, but a
collection holding one (empty, falsy) record serializes to the header row
alone. -/
theorem write_skips_empty_record_cex :
    write_to_csv [Metadata.empty] = some [KEYS] := by decide

/-- C3 (amended): serialize writes the fixed header then one row per
non-empty record in insertion order, quote-always, with `speakers` and
`segments` joined on `';'` and an empty sequence yielding an empty cell;
the spec's scenario row is produced verbatim. -/
theorem write_header_and_rows :
    (∀ ms : List Metadata, (∀ m ∈ ms, m.complete = true) →
      write_to_csv ms = some (KEYS :: ms.map mkRow)) ∧
    write_to_csv (add_item [] c3Rec).1 =
      some [KEYS, ["t.mp3", "E", "T", "A;B", "00:10-00:20"]] ∧
    encodeRow ["t.mp3", "E", "T", "A;B", "00:10-00:20"] =
      "\"t.mp3\",\"E\",\"T\",\"A;B\",\"00:10-00:20\"" :=
  ⟨fun _ h => write_complete h, by decide, by decide⟩

/-- C3 witness: the scenario collection serialized through the general
statement. -/
theorem write_header_and_rows_witness :
    write_to_csv [c3Rec] = some (KEYS :: [c3Rec].map mkRow) :=
  write_header_and_rows.1 [c3Rec] (by decide)

/-- C4 counterexample: a header missing `title` (so not the expected field
set) with a well-formed data row is read without any error — the header is
never validated. -/
theorem read_header_not_validated_cex :
    read_from_csv (.ok [["filepath", "event_name", "speakers", "segments"],
      ["f", "e", "S1;S2", "00:10-00:20"]]) [] =
      .ok [⟨some "f", some "e", none, some ["S1", "S2"], some ["00:10-00:20"]⟩] := by
  decide

/-- C4 (amended): read propagates an IO failure of the source; it performs
no header validation (a table with only a header row always succeeds,
whatever the header says); and a missing `speakers` field raises `KeyError`
only when a non-blank data row is processed. -/
theorem read_failure_modes :
    (∀ (e : PyErr) (ms : List Metadata), read_from_csv (.error e) ms = .error e) ∧
    (∀ (header : List String) (ms : List Metadata),
      read_from_csv (.ok [header]) ms = .ok ms) ∧
    (∀ (header : List String) (rows : List (List String)) (ms : List Metadata),
      ¬ "speakers" ∈ header → (∃ r ∈ rows, r ≠ []) →
      read_from_csv (.ok (header :: rows)) ms = .error .keyError) :=
  ⟨fun _ _ => rfl, fun _ _ => rfl,
   fun _ rows ms hns hex => foldRows_no_speakers hns rows ms hex⟩

/-- C4 witness: a header without `speakers` and one non-blank row raises
`KeyError`. -/
theorem read_failure_modes_witness :
    read_from_csv (.ok [["x"], ["y"]]) [] = .error .keyError :=
  read_failure_modes.2.2 ["x"] [["y"]] [] (by decide) ⟨["y"], by decide, by decide⟩

/-- C5 counterexample: a record added with no data has no `title` key at
all (`none`), so field access fails — nothing is defaulted to empty. -/
theorem add_item_no_defaults_cex :
    (add_item [] Metadata.empty).2.title = none ∧
    (add_item [] Metadata.empty).1 = [Metadata.empty] := by decide

/-- C5 (amended): `add_item` wraps exactly the given mapping, appends it at
the end, and returns it; a field of the returned record is present iff it
was supplied in the initial data. -/
theorem add_item_exact :
    ∀ (ms : List Metadata) (data : Metadata),
      add_item ms data = (ms ++ [data], data) ∧
      (add_item ms data).2.filepath = data.filepath ∧
      (add_item ms data).2.event_name = data.event_name ∧
      (add_item ms data).2.title = data.title ∧
      (add_item ms data).2.speakers = data.speakers ∧
      (add_item ms data).2.segments = data.segments :=
  fun _ _ => ⟨rfl, rfl, rfl, rfl, rfl, rfl⟩

/-- C6: for every pair of second counts `a ≤ b`, both below 360000 (so the
hours render as two digits), parsing the rendered `HH:MM:SS-HH:MM:SS`
string returns exactly `(a, b)`. -/
theorem segment_seconds_round_trip (a b : Nat) (hab : a ≤ b) (hb : b < 360000) :
    segment_seconds (renderSegment a b) = .ok (a, b) := by
  have ha : a < 360000 := lt_of_le_of_lt hab hb
  have hm : segMatch (renderSegment a b).toList =
      some ((a / 3600, a % 3600 / 60, a % 60), (b / 3600, b % 3600 / 60, b % 60)) := by
    show segMatch (renderTS a ++ '-' :: renderTS b) = _
    exact segMatch_renderSegment ha hb
  unfold segment_seconds
  rw [hm]
  show (if tsVal (b / 3600, b % 3600 / 60, b % 60) < tsVal (a / 3600, a % 3600 / 60, a % 60)
    then Except.error SegErr.rangeError
    else Except.ok (tsVal (a / 3600, a % 3600 / 60, a % 60),
      tsVal (b / 3600, b % 3600 / 60, b % 60))) = Except.ok (a, b)
  rw [tsVal_parts, tsVal_parts, if_neg (by omega)]

/-- C6 witness: the pair (70, 3725) renders and parses back to itself. -/
theorem segment_seconds_round_trip_witness :
    segment_seconds (renderSegment 70 3725) = .ok (70, 3725) :=
  segment_seconds_round_trip 70 3725 (by omega) (by omega)

/-- C7 counterexample: the claim says the lookup never throws, but a
non-empty record without a `filepath` key makes `get_item` raise
`KeyError`. -/
theorem get_item_keyerror_cex :
    get_item [⟨none, none, some "T", none, none⟩] "filepath" (MValue.str "a.mp3") =
      .error .keyError := by decide

/-- C7 (amended): when every non-empty record carries the `filepath` key,
`get_item` neither throws nor misses: it returns the first record in
insertion order whose filepath equals the value (falsy records skipped),
and `none` when no record matches. -/
theorem get_item_first_match :
    ∀ (ms : List Metadata) (v : String),
      (∀ m ∈ ms, m.truthy = true → (m.get "filepath").isSome = true) →
      get_item ms "filepath" (MValue.str v) =
        .ok (ms.find? (fun m => m.truthy &&
          decide (m.get "filepath" = some (MValue.str v)))) := by
  intro ms v h
  induction ms with
  | nil => rfl
  | cons m rest ih =>
    have ih2 := ih (fun x hx => h x (List.mem_cons_of_mem m hx))
    by_cases ht : m.truthy = true
    · cases hg : m.get "filepath" with
      | none =>
        have := h m (List.mem_cons_self m rest) ht
        rw [hg] at this
        cases this
      | some mv =>
        by_cases heq : mv = MValue.str v
        · subst heq
          rw [get_item, if_pos ht, hg]
          show (if MValue.str v = MValue.str v then Except.ok (some m)
            else get_item rest "filepath" (MValue.str v)) = _
          rw [if_pos rfl, List.find?_cons_of_pos _ (by rw [ht, hg]; simp)]
        · rw [get_item, if_pos ht, hg]
          show (if mv = MValue.str v then Except.ok (some m)
            else get_item rest "filepath" (MValue.str v)) = _
          rw [if_neg heq, ih2, List.find?_cons_of_neg _ (by rw [ht, hg]; simp [heq])]
    · rw [get_item, if_neg ht, ih2]
      rw [List.find?_cons_of_neg _ (by rw [Bool.not_eq_true] at ht; rw [ht]; simp)]

/-- C7 witness: with a duplicated filepath the first-added record wins. -/
theorem get_item_first_match_witness :
    get_item [c7a, c7b] "filepath" (MValue.str "dup.mp3") = .ok (some c7a) := by
  rw [get_item_first_match [c7a, c7b] "dup.mp3" (by decide)]
  decide

/-- C8: `is_valid_segment` is true on the empty string by convention; on a
non-empty string it is true exactly when `segment_seconds` succeeds and
false whenever it fails (the error never escapes); and the two spec
examples hold. -/
theorem is_valid_segment_spec :
    is_valid_segment "" = true ∧
    (∀ s : String, ¬ s = "" →
      ((is_valid_segment s = true ↔ ∃ p, segment_seconds s = .ok p) ∧
       (∀ e, segment_seconds s = .error e → is_valid_segment s = false))) ∧
    is_valid_segment "not a segment" = false := by
  refine ⟨rfl, ?_, by decide⟩
  intro s hs
  cases hseg : segment_seconds s with
  | ok p =>
    have hv : is_valid_segment s = true := by
      unfold is_valid_segment
      rw [if_neg hs, hseg]
    refine ⟨⟨fun _ => ⟨p, rfl⟩, fun _ => hv⟩, ?_⟩
    intro e he
    cases he
  | error e2 =>
    have hv : is_valid_segment s = false := by
      unfold is_valid_segment
      rw [if_neg hs, hseg]
    refine ⟨⟨fun hc => ?_, fun hex => ?_⟩, fun e _ => hv⟩
    · rw [hv] at hc
      cases hc
    · obtain ⟨p, hp⟩ := hex
      cases hp

/-- C8 witness: a parseable segment is valid. -/
theorem is_valid_segment_spec_witness : is_valid_segment "00:10-00:20" = true :=
  ((is_valid_segment_spec.2.1 "00:10-00:20" (by decide)).1).mpr ⟨(10, 20), by decide⟩

/-- C9: on every exit of the scoped player — the body ending normally or
unwinding with an error — the process receives exactly one terminate and
the sink exactly one close (provided the body itself emits neither). -/
theorem vlc_cleanup_on_all_paths :
    ∀ (trace : List PEvent) (outcome : Except PyErr Unit),
      ¬ PEvent.terminateVlc ∈ trace → ¬ PEvent.closeDevnull ∈ trace →
      (withVLCPlayer (trace, outcome)).1 = vlcAcquire ++ trace ++ vlcRelease ∧
      (withVLCPlayer (trace, outcome)).2 = outcome ∧
      (withVLCPlayer (trace, outcome)).1.count PEvent.terminateVlc = 1 ∧
      (withVLCPlayer (trace, outcome)).1.count PEvent.closeDevnull = 1 := by
  intro trace outcome h1 h2
  refine ⟨rfl, rfl, ?_, ?_⟩
  · show (vlcAcquire ++ trace ++ vlcRelease).count PEvent.terminateVlc = 1
    rw [List.count_append, List.count_append, List.count_eq_zero.mpr h1]
    decide
  · show (vlcAcquire ++ trace ++ vlcRelease).count PEvent.closeDevnull = 1
    rw [List.count_append, List.count_append, List.count_eq_zero.mpr h2]
    decide

/-- C9 witness: an immediately-unwinding body still produces exactly one
terminate and one close. -/
theorem vlc_cleanup_on_all_paths_witness :
    (withVLCPlayer ([], Except.error PyErr.ioError)).1.count PEvent.terminateVlc = 1 ∧
    (withVLCPlayer ([], Except.error PyErr.ioError)).1.count PEvent.closeDevnull = 1 :=
  ⟨(vlc_cleanup_on_all_paths [] (Except.error PyErr.ioError)
      (by decide) (by decide)).2.2.1,
   (vlc_cleanup_on_all_paths [] (Except.error PyErr.ioError)
      (by decide) (by decide)).2.2.2⟩

/-- C10: on success the written table has one header row plus exactly one
row per truthy record, so a collection containing an empty record yields
strictly fewer data rows than records; the concrete instance shows one
data row for a two-record collection. -/
theorem write_rows_count :
    (∀ (ms : List Metadata) (tbl : List (List String)), write_to_csv ms = some tbl →
      tbl.length = 1 + (ms.filter (fun m => m.truthy)).length) ∧
    write_to_csv [Metadata.empty, c10Rec] = some [KEYS, mkRow c10Rec] ∧
    ([KEYS, mkRow c10Rec] : List (List String)).length - 1 <
      [Metadata.empty, c10Rec].length := by
  refine ⟨?_, by decide, by decide⟩
  intro ms tbl h
  unfold write_to_csv at h
  cases hm : mapO buildRow (ms.filter (fun m => m.truthy)) with
  | none =>
    rw [hm] at h
    cases h
  | some rows =>
    rw [hm] at h
    have h2 : some (KEYS :: rows) = some tbl := h
    injection h2 with h2
    rw [← h2]
    simp [mapO_length hm]
    omega

/-- C10 witness: the general count at the mixed collection. -/
theorem write_rows_count_witness :
    ([KEYS, mkRow c10Rec] : List (List String)).length =
      1 + ([Metadata.empty, c10Rec].filter (fun m => m.truthy)).length :=
  write_rows_count.1 [Metadata.empty, c10Rec] [KEYS, mkRow c10Rec] (by decide)

end Paps
